import Mathlib

/-!
Verification of the crabstore storage engine against its natural-language
specification.

The development shallowly embeds the Rust sources of the engine
(`src/crabstore/src/*.rs`).  Machine integers (`u64`, `i64`, `usize`) are
represented by their 64-bit bit pattern as a `Nat` below `2 ^ 64`; points
where the Rust code wraps carry an explicit `% 2 ^ 64`.  Fallible code
(Rust `panic!` / `expect` / `assert!`, and loops that may diverge) is
embedded in the `Option` monad, `none` meaning the call does not return
normally.  Code of the repository that the table engine calls but whose
definition is not present in the sources (the concrete `RID` value type,
the `Page`/`PageRange` helpers) is modelled from the specification; each
such definition carries a doc comment saying so.
-/

/-- PAGE_SIZE from lib.rs. -/
def PAGE_SIZE : Nat := 4096

/-- PAGE_SLOTS from lib.rs: `PAGE_SIZE / size_of::<i64>()`. -/
def PAGE_SLOTS : Nat := PAGE_SIZE / 8

/-- PAGE_RANGE_COUNT from lib.rs. -/
def PAGE_RANGE_COUNT : Nat := 16

/-- NUM_METADATA_COLUMNS from lib.rs. -/
def NUM_METADATA_COLUMNS : Nat := 5

/-- METADATA_INDIRECTION from lib.rs. -/
def METADATA_INDIRECTION : Nat := 0

/-- METADATA_RID from lib.rs. -/
def METADATA_RID : Nat := 1

/-- METADATA_BASE_RID from lib.rs. -/
def METADATA_BASE_RID : Nat := 2

/-- NUM_STATIC_COLUMNS from lib.rs. -/
def NUM_STATIC_COLUMNS : Nat := 3

/-- METADATA_PAGE_HEADER from lib.rs. -/
def METADATA_PAGE_HEADER : Nat := 3

/-- METADATA_SCHEMA_ENCODING from lib.rs. -/
def METADATA_SCHEMA_ENCODING : Nat := 4

/-- RID_INVALID from lib.rs: `!0` on `u64`, i.e. all sixty-four bits set. -/
def RID_INVALID : Nat := 2 ^ 64 - 1

/-!
Section: rid.rs.

`BaseRID` and `TailRID` hold an `i64`; we embed the raw value as its
64-bit two's-complement bit pattern (a `Nat` below `2 ^ 64`).  The Rust
accessors shift the `i64` arithmetically and cast the result `as usize`;
on the bit pattern an arithmetic right shift by `k` is a logical shift
whose top `k` bits are filled with the sign bit.
-/

namespace BaseRID

/-- rid.rs, `impl RID for BaseRID`, `fn slot`: `(self.rid & 0b111111111) as usize`. -/
def slot (rid : Nat) : Nat := rid % 2 ^ 9

/-- rid.rs, `impl RID for BaseRID`, `fn page`: `((self.rid >> 9) & 0b1111) as usize`.
The 4-bit mask keeps only bits 9..12 of the raw id, so the sign bit of the
arithmetic shift never reaches the result. -/
def page (rid : Nat) : Nat := rid / 2 ^ 9 % 2 ^ 4

/-- rid.rs, `impl RID for BaseRID`, `fn page_range`: `(self.rid >> 13) as usize`.
The shift is arithmetic on `i64`: when the sign bit is set, the top
thirteen bits of the 64-bit result are ones. -/
def page_range (rid : Nat) : Nat :=
  if rid < 2 ^ 63 then rid / 2 ^ 13 else rid / 2 ^ 13 + (2 ^ 64 - 2 ^ 51)

/-- rid.rs, `impl BaseRID`, `fn next`: `rid + 1` (wrapping on the bit pattern). -/
def next (rid : Nat) : Nat := (rid + 1) % 2 ^ 64

end BaseRID

namespace TailRID

/-- rid.rs, `impl TailRID`, `fn id`: `((self.rid >> 32) & 0b1111111111111111111111111111111) as usize`
(a 31-bit mask, so bits 32..62 of the raw id). -/
def id (rid : Nat) : Nat := rid / 2 ^ 32 % 2 ^ 31

/-- rid.rs, `impl RID for TailRID`, `fn slot`: `self.id() % PAGE_SLOTS`. -/
def slot (rid : Nat) : Nat := id rid % PAGE_SLOTS

/-- rid.rs, `impl RID for TailRID`, `fn page`: `self.id() / PAGE_SLOTS`. -/
def page (rid : Nat) : Nat := id rid / PAGE_SLOTS

/-- rid.rs, `impl RID for TailRID`, `fn page_range`:
`(self.rid & 0b11111111111111111111111111111111) as usize` (the low 32 bits). -/
def page_range (rid : Nat) : Nat := rid % 2 ^ 32

/-- rid.rs, `impl TailRID`, `fn new_tail`:
`((page_range | (id << 32)) | 1 << 63) as i64`, kept as a bit pattern. -/
def new_tail (pr idv : Nat) : Nat := ((pr ||| (idv <<< 32)) ||| (1 <<< 63)) % 2 ^ 64

end TailRID

/-!
Section: association-list maps.

Rust `FxHashMap` / sorted maps and 4 KiB pages are embedded as
association lists from `Nat` keys; `ainsert` replaces an existing binding,
so a list built through it binds each key at most once.
-/

/-- Lookup in an association list. -/
def alookup {α : Type} : List (Nat × α) → Nat → Option α
  | [], _ => none
  | (k2, v) :: rest, k => if k2 = k then some v else alookup rest k

/-- Remove every binding of a key. -/
def aremove {α : Type} (l : List (Nat × α)) (k : Nat) : List (Nat × α) :=
  l.filter (fun p => p.1 ≠ k)

/-- Insert or replace the binding of a key. -/
def ainsert {α : Type} (l : List (Nat × α)) (k : Nat) (v : α) : List (Nat × α) :=
  (k, v) :: aremove l k

/-!
Section: disk_manager.rs.

The `DiskManager` holds one file and a monotonic `AtomicUsize` block
counter starting at 1 (block 0 is the table header).  The file is
embedded at page granularity: a map from block id to the page's written
slots, absent slots reading as zero.
-/

/-- Content of one 4096-byte block, as its written 64-bit slots. -/
abbrev Phys := List (Nat × Nat)

/-- Read one slot of a physical page (`PhysicalPage::slot`); bytes never
written read as zero, matching `PhysicalPage::default`. -/
def Phys.readSlot (p : Phys) (s : Nat) : Nat := (alookup p s).getD 0

/-- Write one slot of a physical page (`PhysicalPage::write_slot`). -/
def Phys.writeSlot (p : Phys) (s v : Nat) : Phys := ainsert p s v

/-- The disk manager's state: the block-counter `next_free_page` and the
file content by block. -/
structure DiskState where
  next_free_page : Nat
  blocks : List (Nat × Phys)
deriving Repr, DecidableEq

namespace DiskManager

/-- disk_manager.rs `DiskManager::new`: fresh file, counter at 1. -/
def new : DiskState := { next_free_page := 1, blocks := [] }

/-- disk_manager.rs `reserve_page`: `fetch_add(1)` on the counter, returning
the previous value; `usize` addition wraps. -/
def reserve_page (dm : DiskState) : Nat × DiskState :=
  (dm.next_free_page, { dm with next_free_page := (dm.next_free_page + 1) % 2 ^ 64 })

/-- disk_manager.rs `reserve_range`: `fetch_add(pages)`, returning the
previous value. -/
def reserve_range (dm : DiskState) (pages : Nat) : Nat × DiskState :=
  (dm.next_free_page, { dm with next_free_page := (dm.next_free_page + pages) % 2 ^ 64 })

/-- disk_manager.rs `read_page`: positioned read of one block; blocks never
written read as zeros. -/
def read_page (dm : DiskState) (page_id : Nat) : Phys :=
  (alookup dm.blocks page_id).getD []

/-- disk_manager.rs `write_page`: positioned write of one block. -/
def write_page (dm : DiskState) (page_id : Nat) (p : Phys) : DiskState :=
  { dm with blocks := ainsert dm.blocks page_id p }

/-- Run a sequence of reservations (each entry the `pages` argument of one
`reserve_range` call; `reserve_page` is the entry 1), returning the ids
handed out and the final counter. -/
def runReserves (c : Nat) : List Nat → List Nat × Nat
  | [] => ([], c)
  | n :: rest =>
    let ids := runReserves ((c + n) % 2 ^ 64) rest
    (c :: ids.1, ids.2)

end DiskManager

/-!
Section: bufferpool.rs.

Frames cache one block each; `!0` marks an unassigned frame.  The Rust
pool detects pinned frames via `Arc::strong_count(frame) > 1`; that count
tracks handles held outside the pool and is embedded as the abstract
per-frame flag `pinned`.  The clock scan and the full-pool spin are
bounded by an explicit fuel; exhausting it stands for the spin loop.
-/

/-- One `BufferPoolFrame`: held block id (`!0` if none), dirty flag, page
content. -/
structure BufferPoolFrame where
  page_id : Nat
  dirty : Bool
  page : Phys
deriving Repr, DecidableEq

/-- bufferpool.rs `BufferPoolFrame::new`. -/
def BufferPoolFrame.new : BufferPoolFrame :=
  { page_id := RID_INVALID, dirty := false, page := [] }

/-- bufferpool.rs `BufferPoolFrame::flush`: write the held block back,
flush the disk, clear dirty, clear the held id. -/
def BufferPoolFrame.flush (f : BufferPoolFrame) (dm : DiskState) :
    BufferPoolFrame × DiskState :=
  ({ f with dirty := false, page_id := RID_INVALID },
   DiskManager.write_page dm f.page_id f.page)

/-- The `BufferPool` state.  `pinned` abstracts which frames have an
outstanding handle (`Arc::strong_count > 1`). -/
structure BufferPool where
  size : Nat
  page_frame_map : List (Nat × Nat)
  frames : List BufferPoolFrame
  clock_refs : List Bool
  clock_hand : Nat
  pinned : List Bool
deriving Repr, DecidableEq

/-- Outcomes of `BufferPool::get_page` that do not produce a handle:
the `page_id == !0` guard panic (`"Tried to load invalid page"`), the
unbounded clock spin when every frame is pinned or referenced, and the
panics on malformed pool state (bad frame index, re-mapped page). -/
inductive BPErr where
  | invalidPage
  | spin
  | poolPanic
deriving Repr, DecidableEq

namespace BufferPool

/-- bufferpool.rs `find_evict_victim`: clock scan with pin-skip.  Clearing
a reference bit and advancing consumes one unit of fuel; `none` is the
unbounded spin. -/
def find_evict_victim (bp : BufferPool) : Nat → Option (Nat × BufferPool)
  | 0 => none
  | fuel + 1 =>
    match bp.clock_refs.get? bp.clock_hand, bp.pinned.get? bp.clock_hand with
    | some r, some p =>
      if r || p then
        find_evict_victim
          { bp with clock_refs := bp.clock_refs.set bp.clock_hand false,
                    clock_hand := (bp.clock_hand + 1) % bp.size } fuel
      else
        some (bp.clock_hand, { bp with clock_hand := (bp.clock_hand + 1) % bp.size })
    | _, _ => none

/-- bufferpool.rs `evict`: unmap the victim's block, write it back if
dirty, clear the frame. -/
def evict (bp : BufferPool) (dm : DiskState) (victim : Nat) :
    Option (BufferPool × DiskState) :=
  match bp.frames.get? victim with
  | none => none
  | some frame =>
    let bp := { bp with page_frame_map := aremove bp.page_frame_map frame.page_id }
    let fd : BufferPoolFrame × DiskState :=
      if frame.dirty then frame.flush dm else (frame, dm)
    let cleared := { fd.1 with dirty := false, page_id := RID_INVALID }
    some ({ bp with frames := bp.frames.set victim cleared }, fd.2)

/-- bufferpool.rs `get_page`.  The first statement panics on the invalid
page id; a mapped block gets its reference bit set and an added handle;
otherwise a victim is evicted, the block is read from disk into the frame
and mapped.  The returned `Nat` is the index of the frame handed out. -/
def get_page (bp : BufferPool) (dm : DiskState) (page_id : Nat) (fuel : Nat) :
    Except BPErr (Nat × BufferPool × DiskState) :=
  if page_id = RID_INVALID then
    .error .invalidPage
  else
    match alookup bp.page_frame_map page_id with
    | some frame_id =>
      .ok (frame_id, { bp with clock_refs := bp.clock_refs.set frame_id true }, dm)
    | none =>
      match find_evict_victim bp fuel with
      | none => .error .spin
      | some (victim, bp1) =>
        match evict bp1 dm victim with
        | none => .error .poolPanic
        | some (bp2, dm2) =>
          match bp2.frames.get? victim with
          | none => .error .poolPanic
          | some frame =>
            let frame := { frame with page_id := page_id,
                                      page := DiskManager.read_page dm2 page_id }
            let bp3 := { bp2 with frames := bp2.frames.set victim frame,
                                  clock_refs := bp2.clock_refs.set victim true }
            match alookup bp3.page_frame_map page_id with
            | some _ => .error .poolPanic
            | none =>
              .ok (victim,
                   { bp3 with page_frame_map := (page_id, victim) :: bp3.page_frame_map },
                   dm2)

end BufferPool

/-!
Section: the concrete RID value type used by table.rs.

table.rs (and merge.rs, page_directory.rs, index.rs) manipulate a concrete
`RID` value type (`RID::from(u64)`, `.slot()`, `.page()`, `.page_range()`,
`.next()`, `.is_invalid()`).  Its definition is not among the sources —
rid.rs only contains the older `BaseRID`/`TailRID` trait implementation,
which does not offer this interface — so it is modelled from the
specification (§4.5 "RID Algebra").
-/

/-- Modelled from the spec: the concrete `RID` value type of table.rs,
missing from src/.  Spec §4.5: pure functions on a 64-bit id. -/
structure CRID where
  raw : Nat
deriving Repr, DecidableEq

namespace CRID

/-- Modelled from the spec: the top bit distinguishes tail (1) from base (0). -/
def is_tail (r : CRID) : Bool := 2 ^ 63 ≤ r.raw

/-- Modelled from the spec: `untail` is `(~rid) - 1` for a tail id (wrapping
on `usize`), the id itself for a base id. -/
def untail (r : CRID) : Nat :=
  if r.is_tail then ((2 ^ 64 - 1 - r.raw) + (2 ^ 64 - 1)) % 2 ^ 64 else r.raw

/-- Modelled from the spec: `slot = untail & 0x1FF`. -/
def slot (r : CRID) : Nat := r.untail % 2 ^ 9

/-- Modelled from the spec: `page = untail >> 9`. -/
def page (r : CRID) : Nat := r.untail / 2 ^ 9

/-- Modelled from the spec: `page_range = page / K` with `K = 16`. -/
def page_range (r : CRID) : Nat := r.page / PAGE_RANGE_COUNT

/-- Modelled from the spec: `next(rid)` is `rid + 1` for base ids and
`rid - 1` for tail ids (wrapping). -/
def next (r : CRID) : CRID :=
  if r.is_tail then ⟨(r.raw + (2 ^ 64 - 1)) % 2 ^ 64⟩ else ⟨(r.raw + 1) % 2 ^ 64⟩

/-- The `is_invalid()` test against the all-ones sentinel. -/
def is_invalid (r : CRID) : Bool := r.raw = RID_INVALID

end CRID

/-!
Section: the table's storage.

All slot reads and writes of the engine end up, through the buffer pool,
at a (block id, slot) cell of the one table file.  The table model keeps
that store directly: a map from block id to page content, plus a journal
of the `write_slot` calls in most-recent-first order so that statements
about the order of writes (claim C2's final-write clause) can be made.
The merge thread's raw page copy bypasses `write_slot` in the source and
accordingly does not journal.
-/

/-- The slot store: block id to page content, plus the write journal
(newest first, entries `(block, slot, value)`). -/
structure Store where
  blocks : List (Nat × Phys)
  journal : List (Nat × Nat × Nat)
deriving Repr, DecidableEq

/-- Read a slot of a block; unwritten cells read as zero. -/
def Store.read (st : Store) (b s : Nat) : Nat :=
  ((alookup st.blocks b).getD []).readSlot s

/-- Write a slot of a block (a `write_slot` through the buffer pool). -/
def Store.write (st : Store) (b s v : Nat) : Store :=
  { blocks := ainsert st.blocks b (((alookup st.blocks b).getD []).writeSlot s v),
    journal := (b, s, v) :: st.journal }

/-- Copy a block's whole 4 KiB payload over another block (the merge
thread's `clone_from_slice` under the raw frame latches). -/
def Store.copyBlock (st : Store) (src dst : Nat) : Store :=
  { st with blocks := ainsert st.blocks dst ((alookup st.blocks src).getD []) }

/-!
Section: page_directory.rs.
-/

/-- page_directory.rs `PageDirectory`: map from logical page id to the
`Arc<[usize]>` of its column block ids. -/
structure PageDirectory where
  directory : List (Nat × List Nat)
deriving Repr, DecidableEq

namespace PageDirectory

/-- page_directory.rs `get_page`. -/
def get_page (pd : PageDirectory) (page : Nat) : Option (List Nat) :=
  alookup pd.directory page

/-- page_directory.rs `get`: resolve through `rid.page()`. -/
def get (pd : PageDirectory) (rid : CRID) : Option (List Nat) :=
  pd.get_page rid.page

/-- page_directory.rs `new_page`: `try_insert`, panicking (`none`) if the
page number is already mapped. -/
def new_page (pd : PageDirectory) (page_num : Nat) (cols : List Nat) :
    Option PageDirectory :=
  match alookup pd.directory page_num with
  | some _ => none
  | none => some { directory := (page_num, cols) :: pd.directory }

/-- page_directory.rs `replace_page`: plain insert, replacing any previous
binding. -/
def replace_page (pd : PageDirectory) (page_num : Nat) (cols : List Nat) :
    PageDirectory :=
  { directory := ainsert pd.directory page_num cols }

end PageDirectory

/-!
Section: index.rs.

`BTreeIndex` is a `BTreeMap<u64, Vec<u64>>` behind each indexed column;
it is embedded as an association list sorted by key (the `BTreeMap`
iteration order), each key holding its `Vec` of RIDs in push order.
-/

/-- Content of one `BTreeIndex`: sorted by key, values in push order. -/
abbrev Bt := List (Nat × List Nat)

/-- index.rs `BTreeIndex::update`: push onto an existing key's vector,
else insert a fresh singleton (at the key's sorted position). -/
def Bt.update : Bt → Nat → Nat → Bt
  | [], key, v => [(key, [v])]
  | (k2, vs) :: rest, key, v =>
    if key = k2 then (k2, vs ++ [v]) :: rest
    else if key < k2 then (key, [v]) :: (k2, vs) :: rest
    else (k2, vs) :: Bt.update rest key v

/-- index.rs `BTreeIndex::remove`: `retain(|x| *x != value)` on the key's
vector (removing every copy; the key stays even if emptied). -/
def Bt.remove : Bt → Nat → Nat → Bt
  | [], _, _ => []
  | (k2, vs) :: rest, key, v =>
    if key = k2 then (k2, vs.filter (fun x => x ≠ v)) :: rest
    else (k2, vs) :: Bt.remove rest key v

/-- index.rs `BTreeIndex::get_range`: all values for keys in
`start..=end`, in ascending key order. -/
def Bt.get_range (bt : Bt) (lo hi : Nat) : List Nat :=
  (bt.filter (fun p => lo ≤ p.1 && p.1 ≤ hi)).flatMap Prod.snd

/-- index.rs `Index`: one optional map per user column. -/
structure Index where
  indices : List (Option Bt)
deriving Repr, DecidableEq

namespace Index

/-- index.rs `Index::new`: no index anywhere except a fresh one on the key
column.  Panics (`none`) if the key column is out of range. -/
def new (key_index num_columns : Nat) : Option Index :=
  let base : List (Option Bt) := List.replicate num_columns none
  if key_index < num_columns then
    some { indices := base.set key_index (some []) }
  else none

/-- index.rs `Index::update_index`: update the column's map if one exists
(indexing `self.indices[column_number]` panics out of range). -/
def update_index (idx : Index) (col v rid : Nat) : Option Index := do
  let entry ← idx.indices.get? col
  match entry with
  | some bt => some { indices := idx.indices.set col (some (bt.update v rid)) }
  | none => some idx

/-- index.rs `Index::remove_index`. -/
def remove_index (idx : Index) (col v rid : Nat) : Option Index := do
  let entry ← idx.indices.get? col
  match entry with
  | some bt => some { indices := idx.indices.set col (some (bt.remove v rid)) }
  | none => some idx

/-- index.rs `Index::get_from_index`: `None` when the column has no index,
otherwise the (possibly empty) bucket. -/
def get_from_index (idx : Index) (col v : Nat) : Option (Option (List Nat)) := do
  let entry ← idx.indices.get? col
  match entry with
  | none => some none
  | some bt => some (some ((alookup bt v).getD []))

/-- index.rs `Index::range_from_index`. -/
def range_from_index (idx : Index) (col lo hi : Nat) :
    Option (Option (List Nat)) := do
  let entry ← idx.indices.get? col
  match entry with
  | none => some none
  | some bt => some (some (bt.get_range lo hi))

/-- index.rs `Index::drop_index`. -/
def drop_index (idx : Index) (col : Nat) : Option Index := do
  let _ ← idx.indices.get? col
  some { indices := idx.indices.set col none }

end Index

/-!
Section: table.rs state and read path.
-/

/-- Modelled from the spec: the per-range record of the `RangeDirectory`
(the concrete `PageRange` type used by table.rs and range_directory.rs is
not among the sources; page.rs holds an older, incompatible `PageRange`).
Spec §3: `next_tid` (next tail RID to allocate), `current_tail_page`
(logical page id being filled), `merged_until` (last tail page already
merged). -/
structure PageRangeRec where
  next_tid : Nat
  current_tail_page : Nat
  merged_until : Nat
deriving Repr, DecidableEq

/-- Modelled from the spec: `PageRange::new(next_tid.raw(), next_tid.page())`
as called by `Table::allocate_tail_page`; `merged_until` starts at 0 (no
tail page merged yet). -/
def PageRangeRec.new (tidRaw pageId : Nat) : PageRangeRec :=
  { next_tid := tidRaw, current_tail_page := pageId, merged_until := 0 }

/-- Modelled from the spec (§4.9): the current tail page is exhausted when
the next tail id no longer decodes to it. -/
def PageRangeRec.tail_is_full (r : PageRangeRec) : Bool :=
  (CRID.mk r.next_tid).page ≠ r.current_tail_page

/-- The `Table` state of table.rs, restricted to the fields its query
methods touch.  The buffer pool and disk manager are collapsed into the
slot store plus the block counter `disk_free` (`DiskManager::next_free_page`);
`merge_queue` is the channel of range ids sent to the merge thread. -/
structure Table where
  num_columns : Nat
  primary_key_index : Nat
  index : Index
  next_rid : Nat
  next_tid : Nat
  page_dir : PageDirectory
  range_dir : List PageRangeRec
  disk_free : Nat
  store : Store
  merge_queue : List Nat
deriving Repr, DecidableEq

namespace Table

/-- table.rs `total_columns`. -/
def total_columns (t : Table) : Nat := NUM_METADATA_COLUMNS + t.num_columns

/-- Read one metadata or user column of a page at a slot:
`page.get_column(bp, col).slot(s)`.  Panics (`none`) when the column index
is outside the page's block list. -/
def readCell (t : Table) (cols : List Nat) (col s : Nat) : Option Nat := do
  let b ← cols.get? col
  pure (t.store.read b s)

/-- Write one column of a page at a slot:
`page.get_column(bp, col).write_slot(s, v)`. -/
def writeCell (t : Table) (cols : List Nat) (col s v : Nat) : Option Table := do
  let b ← cols.get? col
  pure { t with store := t.store.write b s v }

/-- Modelled from the spec: `Page::read_page_tps`, used by table.rs but not
among the sources.  The TPS of a base page is the PAGE_HEADER column's
slot 0 (spec §3, metadata column 4). -/
def read_page_tps (t : Table) (cols : List Nat) : Option Nat :=
  t.readCell cols METADATA_PAGE_HEADER 0

/-- Modelled from the spec: `Page::write_page_tps` (PAGE_HEADER slot 0). -/
def write_page_tps (t : Table) (cols : List Nat) (v : Nat) : Option Table :=
  t.writeCell cols METADATA_PAGE_HEADER 0 v

/-- Modelled from the spec: `Page::read_last_tail`, the previous tail page
id in the chain, stored in the tail page's PAGE_HEADER slot 0 (spec §3). -/
def read_last_tail (t : Table) (cols : List Nat) : Option Nat :=
  t.readCell cols METADATA_PAGE_HEADER 0

/-- Modelled from the spec: `Page::write_last_tail` (PAGE_HEADER slot 0). -/
def write_last_tail (t : Table) (cols : List Nat) (v : Nat) : Option Table :=
  t.writeCell cols METADATA_PAGE_HEADER 0 v

/-- table.rs `get_latest`: read the base slot's INDIRECTION; if `INVALID`
return the rid; else if the page's TPS is at most the indirection return
the rid; else return the indirection.  The `||` short-circuits, so the TPS
is only read when the indirection is valid. -/
def get_latest (t : Table) (rid : CRID) : Option CRID := do
  let cols ← t.page_dir.get rid
  let indir ← t.readCell cols METADATA_INDIRECTION rid.slot
  if indir = RID_INVALID then
    pure rid
  else do
    let tps ← t.read_page_tps cols
    pure (if tps ≤ indir then rid else CRID.mk indir)

/-- table.rs `find_row`, index branch: `vals.iter().find(..)` keeping the
first candidate whose RID column (at its own slot) is not the tombstone. -/
def findRowIndexed (t : Table) : List Nat → Option (Option CRID)
  | [] => some none
  | raw :: rest => do
    let rid := CRID.mk raw
    let cols ← t.page_dir.get rid
    let v ← t.readCell cols METADATA_RID rid.slot
    if v ≠ RID_INVALID then pure (some rid) else t.findRowIndexed rest

/-- table.rs `find_row`, linear branch.  The source loop advances `rid`
only in the tombstone case; on a live, non-matching record it loops
forever — the fuel running out (`none`) embeds that spin. -/
def findRowLinear (t : Table) (column_index value : Nat) :
    Nat → Nat → Option (Option CRID)
  | _, 0 => none
  | ridRaw, fuel + 1 =>
    if ridRaw < t.next_rid then do
      let rid := CRID.mk ridRaw
      let cols ← t.page_dir.get rid
      let v ← t.readCell cols METADATA_RID rid.slot
      if v = RID_INVALID then
        t.findRowLinear column_index value rid.next.raw fuel
      else do
        let latest ← t.get_latest rid
        let lcols ← t.page_dir.get latest
        let lv ← t.readCell lcols (NUM_METADATA_COLUMNS + column_index) latest.slot
        if lv = value then pure (some rid)
        else t.findRowLinear column_index value ridRaw fuel
    else pure none

/-- table.rs `find_row`. -/
def find_row (t : Table) (column_index value fuel : Nat) : Option (Option CRID) := do
  match ← t.index.get_from_index column_index value with
  | some vals => t.findRowIndexed vals
  | none => t.findRowLinear column_index value 0 fuel

/-- table.rs `find_rows`, index branch.  The filter reads the RID column at
slot `x.page()` — the source's `.slot(x.page())` — not at the record's own
slot. -/
def findRowsIndexed (t : Table) : List Nat → Option (List CRID)
  | [] => some []
  | raw :: rest => do
    let rid := CRID.mk raw
    let cols ← t.page_dir.get rid
    let v ← t.readCell cols METADATA_RID rid.page
    let tail ← t.findRowsIndexed rest
    pure (if v ≠ RID_INVALID then rid :: tail else tail)

/-- table.rs `find_rows`, linear branch (this one advances `rid` on every
iteration). -/
def findRowsLinear (t : Table) (column_index value : Nat) :
    Nat → Nat → Option (List CRID)
  | _, 0 => none
  | ridRaw, fuel + 1 =>
    if ridRaw < t.next_rid then do
      let rid := CRID.mk ridRaw
      let cols ← t.page_dir.get rid
      let v ← t.readCell cols METADATA_RID rid.slot
      if v = RID_INVALID then
        t.findRowsLinear column_index value rid.next.raw fuel
      else do
        let latest ← t.get_latest rid
        let lcols ← t.page_dir.get latest
        let lv ← t.readCell lcols (NUM_METADATA_COLUMNS + column_index) latest.slot
        let rest ← t.findRowsLinear column_index value rid.next.raw fuel
        pure (if lv = value then rid :: rest else rest)
    else pure []

/-- table.rs `find_rows`. -/
def find_rows (t : Table) (column_index value fuel : Nat) : Option (List CRID) := do
  match ← t.index.get_from_index column_index value with
  | some vals => t.findRowsIndexed vals
  | none => t.findRowsLinear column_index value 0 fuel

/-- table.rs `find_rows_range`, linear branch: scan every rid below
`next_rid`, keep those whose primary-key column lies in the range.  No
tombstone check is performed. -/
def findRowsRangeLinear (t : Table) (lo hi : Nat) :
    Nat → Nat → Option (List CRID)
  | _, 0 => none
  | ridRaw, fuel + 1 =>
    if ridRaw < t.next_rid then do
      let rid := CRID.mk ridRaw
      let cols ← t.page_dir.get rid
      let key ← t.readCell cols (NUM_METADATA_COLUMNS + t.primary_key_index) rid.slot
      let rest ← t.findRowsRangeLinear lo hi rid.next.raw fuel
      pure (if lo ≤ key ∧ key ≤ hi then rid :: rest else rest)
    else pure []

/-- table.rs `find_rows_range`: the range lookup goes to `column_index`'s
own index when that column has one; only the linear fallback consults the
primary key. -/
def find_rows_range (t : Table) (column_index lo hi fuel : Nat) :
    Option (List CRID) := do
  match ← t.index.range_from_index column_index lo hi with
  | some vals => pure (vals.map CRID.mk)
  | none => t.findRowsRangeLinear lo hi 0 fuel

/-- table.rs `sum_query`, summation loop: add the requested user column at
each candidate's latest version (`u64` wrapping addition). -/
def sumLoop (t : Table) (column_index : Nat) : List CRID → Nat → Option Nat
  | [], acc => some acc
  | rid :: rest, acc => do
    let latest ← t.get_latest rid
    let cols ← t.page_dir.get latest
    let v ← t.readCell cols (NUM_METADATA_COLUMNS + column_index) latest.slot
    t.sumLoop column_index rest ((acc + v) % 2 ^ 64)

/-- table.rs `sum_query`. -/
def sum_query (t : Table) (start_range end_range column_index fuel : Nat) :
    Option Nat := do
  let rids ← t.find_rows_range column_index start_range end_range fuel
  t.sumLoop column_index rids 0

end Table

/-- lib.rs `RecordRust`: the record a select returns. -/
structure RecordRust where
  rid : Nat
  indirection : Nat
  schema_encoding : Nat
  columns : List Nat
deriving Repr, DecidableEq

/-- table.rs `select_query`, per-candidate body: read the requested user
columns, the RID, INDIRECTION and SCHEMA_ENCODING columns at the latest
version's slot. -/
def Table.selectOne (t : Table) (included_columns : List Nat) (rid0 : CRID) :
    Option RecordRust := do
  let rid ← t.get_latest rid0
  let cols ← t.page_dir.get rid
  let result_cols ← included_columns.mapM
    (fun i => t.readCell cols (NUM_METADATA_COLUMNS + i) rid.slot)
  let original_rid ← t.readCell cols METADATA_RID rid.slot
  let indirection ← t.readCell cols METADATA_INDIRECTION rid.slot
  let schema ← t.readCell cols METADATA_SCHEMA_ENCODING rid.slot
  pure { rid := original_rid, indirection := indirection,
         schema_encoding := schema, columns := result_cols }

/-- table.rs `select_query`. -/
def Table.select_query (t : Table) (search_value column_index : Nat)
    (included_columns : List Nat) (fuel : Nat) : Option (List RecordRust) := do
  let vals ← t.find_rows column_index search_value fuel
  vals.mapM (t.selectOne included_columns)

/-- table.rs `merge_values`: read the current latest version's user
columns and overlay the supplied ones (`zip` truncates to the shorter of
the two lists, as in the source). -/
def Table.merge_values (t : Table) (base_rid : CRID) (columns : List (Option Nat)) :
    Option (List Nat) := do
  let rid ← t.get_latest base_rid
  let cols ← t.page_dir.get rid
  let current ← (List.range t.num_columns).mapM
    (fun c => t.readCell cols (NUM_METADATA_COLUMNS + c) rid.slot)
  pure ((columns.zip current).map (fun p => match p.1 with
    | none => p.2
    | some x => x))

/-!
Section: table.rs allocation and write path.
-/

/-- table.rs `allocate_tail_page`: take `PAGE_SLOTS` tail ids off the
table-wide counter (`fetch_sub`, returning the previous value), reserve
`total_columns` fresh blocks, install them in the page directory under the
new tail id's page (panicking if that page id is taken), and return the
new range record. -/
def Table.allocate_tail_page (t : Table) : Option (PageRangeRec × Table) := do
  let oldTid := t.next_tid
  let t1 := { t with next_tid := (t.next_tid + (2 ^ 64 - PAGE_SLOTS)) % 2 ^ 64 }
  let start := t1.disk_free
  let t2 := { t1 with disk_free := (t1.disk_free + t1.total_columns) % 2 ^ 64 }
  let cols := (List.range t2.total_columns).map (fun i => start + i)
  let pd ← t2.page_dir.new_page (CRID.mk oldTid).page cols
  pure (PageRangeRec.new oldTid (CRID.mk oldTid).page, { t2 with page_dir := pd })

/-- table.rs `next_tid` (the tail allocator; named for spec §4.9 to avoid
clashing with the `next_tid` field): materialize the range if it is new
(asserting it is exactly the next one), roll the tail page over when full
(linking the new page to the previous via its PAGE_HEADER and notifying
the merge channel), then hand out `range.next_tid.fetch_sub(1)`. -/
def Table.next_tid_for_range (t : Table) (range_id : Nat) : Option (CRID × Table) := do
  let t1 ←
    if range_id ≥ t.range_dir.length then
      if range_id = t.range_dir.length then do
        let np ← t.allocate_tail_page
        let cols ← np.2.page_dir.get_page np.1.current_tail_page
        let t2 ← np.2.write_last_tail cols RID_INVALID
        pure { t2 with range_dir := t2.range_dir ++ [np.1] }
      else none
    else pure t
  let range ← t1.range_dir.get? range_id
  let t4 ←
    if range.tail_is_full then do
      let last_tail_page := range.current_tail_page
      let nt ← t1.allocate_tail_page
      let cols ← nt.2.page_dir.get_page nt.1.current_tail_page
      let t5 ← nt.2.write_last_tail cols last_tail_page
      let newRange : PageRangeRec :=
        { range with current_tail_page := nt.1.current_tail_page,
                     next_tid := nt.1.next_tid }
      let t6 := { t5 with range_dir := t5.range_dir.set range_id newRange }
      pure { t6 with merge_queue := t6.merge_queue ++ [range_id] }
    else pure t1
  let range2 ← t4.range_dir.get? range_id
  let takenRange : PageRangeRec :=
    { range2 with next_tid := (range2.next_tid + (2 ^ 64 - 1)) % 2 ^ 64 }
  let t7 := { t4 with range_dir := t4.range_dir.set range_id takenRange }
  pure (CRID.mk range2.next_tid, t7)

/-- Write a list of user-column values at a slot, in index order
(the `for (i, val) in values.iter().enumerate()` loops of insert and
update). -/
def Table.writeUserCols (t : Table) (cols : List Nat) (s : Nat) :
    List Nat → Nat → Option Table
  | [], _ => some t
  | v :: rest, i => do
    let t2 ← t.writeCell cols (NUM_METADATA_COLUMNS + i) s v
    t2.writeUserCols cols s rest (i + 1)

/-- The `u64` constant `1 << i`. -/
def bit64 (i : Nat) : Nat := (1 <<< i) % 2 ^ 64

/-- table.rs `update_query`, schema/index loop: for each supplied column,
or the bit into the schema encoding and insert the new value into the
column's index; the removal of an old value is guarded by
`(old_schema_encoding & (1 << i)) == 1 || old_latest_rid.is_invalid()`
(the comparison against 1 is the source's), the `else if` branch repeating
the same `== 1` test against the old latest version's value. -/
def Table.updateIndexLoop (t : Table) (base_page : List Nat)
    (base_rid old_latest_rid : CRID) (old_schema : Nat) :
    List (Option Nat) → Nat → Nat → Option (Nat × Table)
  | [], _, schema => some (schema, t)
  | v :: rest, i, schema =>
    match v with
    | none => t.updateIndexLoop base_page base_rid old_latest_rid old_schema rest (i + 1) schema
    | some x => do
      let schema2 := (schema ||| bit64 i) % 2 ^ 64
      let idx1 ← t.index.update_index i x base_rid.raw
      let t1 := { t with index := idx1 }
      let t2 ←
        if (old_schema &&& bit64 i) = 1 ∨ old_latest_rid.is_invalid then do
          let oldv ← t1.readCell base_page (NUM_METADATA_COLUMNS + i) base_rid.slot
          let idx2 ← t1.index.remove_index i oldv base_rid.raw
          pure { t1 with index := idx2 }
        else if ¬ old_latest_rid.is_invalid ∧ (old_schema &&& bit64 i) = 1 then do
          let ocols ← t1.page_dir.get old_latest_rid
          let oldv ← t1.readCell ocols (NUM_METADATA_COLUMNS + i) old_latest_rid.slot
          let idx2 ← t1.index.remove_index i oldv base_rid.raw
          pure { t1 with index := idx2 }
        else pure t1
      t2.updateIndexLoop base_page base_rid old_latest_rid old_schema rest (i + 1) schema2

/-- table.rs `update_query`, read phase: the merged row, the base slot's
current INDIRECTION and the latest version's SCHEMA_ENCODING, read in the
source's order before the tail slot is allocated.  Returns
`(updated_values, (old_latest_raw, old_schema_encoding))`. -/
def Table.updateReads (t : Table) (base_rid : CRID) (values : List (Option Nat)) :
    Option (List Nat × Nat × Nat) := do
  let updated_values ← t.merge_values base_rid values
  let bcols ← t.page_dir.get base_rid
  let old_latest_raw ← t.readCell bcols METADATA_INDIRECTION base_rid.slot
  let base_latest ← t.get_latest base_rid
  let blcols ← t.page_dir.get base_latest
  let old_schema ← t.readCell blcols METADATA_SCHEMA_ENCODING base_latest.slot
  pure (updated_values, old_latest_raw, old_schema)

/-- table.rs `update_query`, write phase (the statements from the first
tail-slot write to the end of the function): BASE_RID, INDIRECTION
(previous latest or the base rid), RID and the merged user columns go to
the tail slot; the schema/index loop runs; the SCHEMA_ENCODING bitmask is
written to the tail page at `base_rid.slot()` (as in the source); and the
final write publishes the tail rid in the base slot's INDIRECTION. -/
def Table.updateWrites (t1 : Table) (base_page tail_page : List Nat)
    (base_rid tail_rid old_latest_rid : CRID) (old_schema : Nat)
    (updated_values : List Nat) (values : List (Option Nat)) :
    Option (Bool × Table) := do
  let t2 ← t1.writeCell tail_page METADATA_BASE_RID tail_rid.slot base_rid.raw
  let t3 ← t2.writeCell tail_page METADATA_INDIRECTION tail_rid.slot
    (if old_latest_rid.is_invalid then base_rid.raw else old_latest_rid.raw)
  let t4 ← t3.writeCell tail_page METADATA_RID tail_rid.slot tail_rid.raw
  let t5 ← t4.writeUserCols tail_page tail_rid.slot updated_values 0
  let si ← t5.updateIndexLoop base_page base_rid old_latest_rid old_schema values 0 0
  let t6 ← si.2.writeCell tail_page METADATA_SCHEMA_ENCODING base_rid.slot si.1
  let t7 ← t6.writeCell base_page METADATA_INDIRECTION base_rid.slot tail_rid.raw
  pure (true, t7)

/-- table.rs `update_query`: fail when the key is missing or a new primary
key is supplied for an existing row; otherwise read the merged row and the
old metadata, allocate a tail rid for the base rid's page range, and run
the write phase.  (The body is staged into `updateReads`/`updateWrites`
purely to keep the compiled code small; the statement order is the
source's.) -/
def Table.update_query (t : Table) (key : Nat) (values : List (Option Nat))
    (fuel : Nat) : Option (Bool × Table) := do
  let row ← t.find_row t.primary_key_index key fuel
  let pkv ← values.get? t.primary_key_index
  if pkv.isSome ∧ row.isSome then pure (false, t)
  else
    match row with
    | none => pure (false, t)
    | some base_rid => do
      let base_page ← t.page_dir.get base_rid
      let rd ← t.updateReads base_rid values
      let tl ← t.next_tid_for_range base_rid.page_range
      let tail_page ← tl.2.page_dir.get tl.1
      tl.2.updateWrites base_page tail_page base_rid tl.1 (CRID.mk rd.2.1)
        rd.2.2 rd.1 values

/-- table.rs `delete_query`, chain walk: while the cursor is neither
`INVALID` nor the base rid, read its INDIRECTION and stamp its RID column
with the tombstone.  A cyclic chain loops forever (fuel `none`). -/
def Table.deleteChain (t : Table) (rowRaw : Nat) :
    Nat → Nat → Option Table
  | _, 0 => none
  | cursor, fuel + 1 =>
    if cursor ≠ RID_INVALID ∧ cursor ≠ rowRaw then do
      let next_tail := CRID.mk cursor
      let cols ← t.page_dir.get next_tail
      let nxt ← t.readCell cols METADATA_INDIRECTION next_tail.slot
      let cols2 ← t.page_dir.get next_tail
      let t2 ← t.writeCell cols2 METADATA_RID next_tail.slot RID_INVALID
      t2.deleteChain rowRaw nxt fuel
    else pure t

/-- table.rs `delete_query`. -/
def Table.delete_query (t : Table) (key fuel : Nat) : Option (Bool × Table) := do
  let row ← t.find_row t.primary_key_index key fuel
  match row with
  | none => pure (false, t)
  | some row => do
    let cols ← t.page_dir.get row
    let first ← t.readCell cols METADATA_INDIRECTION row.slot
    let t2 ← t.deleteChain row.raw first fuel
    let cols2 ← t2.page_dir.get row
    let t3 ← t2.writeCell cols2 METADATA_RID row.slot RID_INVALID
    pure (true, t3)

/-- table.rs `insert_query`, page-range materialization loop: sixteen new
base pages, each getting `total_columns` consecutive fresh blocks, its
PAGE_HEADER slot 0 set to `INVALID`, and a `new_page` installation that
panics on a taken page id. -/
def Table.allocBaseLoop (pr reserved total : Nat) :
    Table → Nat → Option Table := fun t i =>
  if h : i < PAGE_RANGE_COUNT then do
    let page_id := pr * PAGE_RANGE_COUNT + i
    let start_offset := reserved + i * total
    let cols := (List.range total).map (fun j => start_offset + j)
    let hb ← cols.get? METADATA_PAGE_HEADER
    let t2 := { t with store := t.store.write hb 0 RID_INVALID }
    let pd ← t2.page_dir.new_page page_id cols
    Table.allocBaseLoop pr reserved total { t2 with page_dir := pd } (i + 1)
  else some t
termination_by _t i => PAGE_RANGE_COUNT - i

/-- table.rs `insert_query`, index loop: `for i in 0..num_columns`,
`update_index(i, *values.get(i).unwrap(), rid)` (panicking if `values` is
shorter than the column count). -/
def Table.insertIndexLoop (rid : CRID) (values : List Nat) (ncols : Nat) :
    Table → Nat → Option Table := fun t i =>
  if h : i < ncols then do
    let v ← values.get? i
    let idx ← t.index.update_index i v rid.raw
    Table.insertIndexLoop rid values ncols { t with index := idx } (i + 1)
  else some t
termination_by _t i => ncols - i

/-- table.rs `insert_query`: allocate the rid, lazily materialize its page
range, write the metadata columns and the user values, then feed every
indexed column. -/
def Table.insert_query (t : Table) (values : List Nat) : Option Table := do
  let ridRaw := t.next_rid
  let t0 := { t with next_rid := (t.next_rid + 1) % 2 ^ 64 }
  let rid := CRID.mk ridRaw
  let t1 ←
    match t0.page_dir.get rid with
    | some _ => some t0
    | none =>
      match t0.page_dir.get rid with
      | some _ => some t0
      | none => do
        let reserved := t0.disk_free
        let t2 := { t0 with
          disk_free := (t0.disk_free + t0.total_columns * PAGE_RANGE_COUNT) % 2 ^ 64 }
        Table.allocBaseLoop rid.page_range reserved t2.total_columns t2 0
  let page ← t1.page_dir.get rid
  let t2 ← t1.writeCell page METADATA_INDIRECTION rid.slot RID_INVALID
  let t3 ← t2.writeCell page METADATA_RID rid.slot rid.raw
  let t4 ← t3.writeCell page METADATA_SCHEMA_ENCODING rid.slot 0
  let t5 ← t4.writeUserCols page rid.slot values 0
  Table.insertIndexLoop rid values t5.num_columns t5 0

/-- table.rs `TablePy::insert`: look the primary key up first and return
without touching the table when a live row already carries it. -/
def Table.insert_py (t : Table) (values : List Nat) (fuel : Nat) : Option Table := do
  let pkv ← values.get? t.primary_key_index
  let row ← t.find_row t.primary_key_index pkv fuel
  if row.isSome then pure t else t.insert_query values

/-!
Section: lock_manager.rs.

`LockManager` holds a lazily populated map from RID to a `parking_lot`
reader/writer latch; a latch's state is its reader count and writer flag.
`try_lock` materializes the entry (`entry(rid).or_insert`) even when the
lock attempt fails.
-/

/-- lock_manager.rs `LockType`. -/
inductive LockType where
  | shared
  | exclusive
deriving Repr, DecidableEq

/-- lock_manager.rs `LockHandle`. -/
structure LockHandle where
  rid : Nat
  lock_type : LockType
deriving Repr, DecidableEq

/-- State of one reader/writer latch. -/
structure LockState where
  shared : Nat
  exclusive : Bool
deriving Repr, DecidableEq

/-- lock_manager.rs `LockManager`. -/
structure LockManager where
  locks : List (Nat × LockState)
deriving Repr, DecidableEq

namespace LockManager

/-- The state of the latch for a RID; an entry never touched is free. -/
def stateOf (lm : LockManager) (rid : Nat) : LockState :=
  (alookup lm.locks rid).getD { shared := 0, exclusive := false }

/-- lock_manager.rs `try_lock`: non-blocking; a shared attempt fails
against a writer, an exclusive attempt against any holder.  The map entry
is created either way. -/
def try_lock (lm : LockManager) (rid : Nat) (lt : LockType) :
    Option LockHandle × LockManager :=
  let st := lm.stateOf rid
  match lt with
  | .shared =>
    if st.exclusive then
      (none, { locks := ainsert lm.locks rid st })
    else
      (some { rid := rid, lock_type := .shared },
       { locks := ainsert lm.locks rid { st with shared := st.shared + 1 } })
  | .exclusive =>
    if st.exclusive || st.shared > 0 then
      (none, { locks := ainsert lm.locks rid st })
    else
      (some { rid := rid, lock_type := .exclusive },
       { locks := ainsert lm.locks rid { st with exclusive := true } })

/-- lock_manager.rs `unlock`: release exactly the mode the handle
records; panics (`none`) if the RID has no latch entry. -/
def unlock (lm : LockManager) (h : LockHandle) : Option LockManager :=
  match alookup lm.locks h.rid with
  | none => none
  | some st =>
    let st2 :=
      match h.lock_type with
      | .shared => { st with shared := st.shared - 1 }
      | .exclusive => { st with exclusive := false }
    some { locks := ainsert lm.locks h.rid st2 }

end LockManager

/-!
Section: transaction.rs.

The transaction's write log records reversible mutations; `run` executes
the statements, pushing one `(num_locks, num_muts)` bookkeeping entry per
statement, and rolls everything back when a statement aborts.  The
statement bodies the source dispatches to (`update_query(.., Some(self))`
and friends) are not among the sources — src's table.rs only has the
non-transactional methods — and are modelled from the specification
below; the model covers the mutating statement kind, `Query::Update`.
-/

/-- transaction.rs `IndexMutation`. -/
inductive IndexMutation where
  | add (rid value column : Nat)
  | remove (rid old_value column : Nat)
deriving Repr, DecidableEq

/-- transaction.rs `Mutation`. -/
inductive Mutation where
  | index (im : IndexMutation)
  | record (modified_column modified_entry original_value : Nat)
deriving Repr, DecidableEq

/-- transaction.rs `QueryStatus`. -/
inductive QueryStatus where
  | Idle
  | Executing
  | AbortedRetryable
  | AbortedNotRetryable
deriving Repr, DecidableEq

/-- transaction.rs `ExecutedQuery`: per-statement bookkeeping. -/
structure ExecutedQuery where
  num_locks : Nat
  num_muts : Nat
deriving Repr, DecidableEq

/-- transaction.rs `Query`, restricted to the mutating statement the
rollback claim concerns. -/
inductive TQuery where
  | update (key : Nat) (vals : List (Option Nat))
deriving Repr, DecidableEq

/-- transaction.rs `Transaction` (the engine-facing fields; the queries
all target one table). -/
structure Transaction where
  query_log : List ExecutedQuery
  queries : List TQuery
  write_log : List Mutation
  locks_acquired : List LockHandle
  current_writes : Nat
  current_locks : Nat
  current_status : QueryStatus
deriving Repr, DecidableEq

namespace Transaction

/-- transaction.rs `log_write`: count and append a record mutation. -/
def log_write (txn : Transaction) (modified_column modified_entry original_value : Nat) :
    Transaction :=
  { txn with current_writes := txn.current_writes + 1,
             write_log := txn.write_log ++
               [.record modified_column modified_entry original_value] }

/-- transaction.rs `log_index_write`. -/
def log_index_write (txn : Transaction) (im : IndexMutation) : Transaction :=
  { txn with current_writes := txn.current_writes + 1,
             write_log := txn.write_log ++ [.index im] }

/-- transaction.rs `has_lock`. -/
def has_lock (txn : Transaction) (rid : Nat) : Bool :=
  txn.locks_acquired.any (fun h => h.rid = rid)

/-- transaction.rs `set_aborted`. -/
def set_aborted (txn : Transaction) (retry : Bool) : Transaction :=
  { txn with current_status :=
      if retry then .AbortedRetryable else .AbortedNotRetryable }

/-- transaction.rs `try_lock` (the private method): short-circuit when the
transaction already holds a lock on this RID; otherwise try the manager
and record the handle. -/
def try_lock (txn : Transaction) (lm : LockManager) (rid : Nat) (lt : LockType) :
    Bool × Transaction × LockManager :=
  if txn.has_lock rid then (true, txn, lm)
  else
    match lm.try_lock rid lt with
    | (some h, lm2) =>
      (true, { txn with current_locks := txn.current_locks + 1,
                        locks_acquired := txn.locks_acquired ++ [h] }, lm2)
    | (none, lm2) => (false, txn, lm2)

/-- transaction.rs `try_lock_with_abort`. -/
def try_lock_with_abort (txn : Transaction) (lm : LockManager) (rid : Nat)
    (lt : LockType) : Bool × Transaction × LockManager :=
  let r := txn.try_lock lm rid lt
  if r.1 then r else (false, r.2.1.set_aborted true, r.2.2)

end Transaction

/-- Whether a column currently has an index (used to decide what the
transactional statements log; `update_index`/`remove_index` are no-ops on
unindexed columns). -/
def Index.has (idx : Index) (col : Nat) : Bool :=
  match idx.indices.get? col with
  | some (some _) => true
  | _ => false

/-- Modelled from the spec: step 6 of §4.8 for the transactional update —
for each supplied column, remove the old indexed value for the base RID
(the value read at the record's pre-update latest version) and insert the
new one, logging both mutations when the column is indexed. -/
def Table.updateTxnIndexLoop (t : Table) (txn : Transaction) (base_rid : CRID)
    (lcols : List Nat) (lslot : Nat) :
    List (Option Nat) → Nat → Option (Table × Transaction)
  | [], _ => some (t, txn)
  | none :: rest, i => t.updateTxnIndexLoop txn base_rid lcols lslot rest (i + 1)
  | some x :: rest, i => do
    let oldv ← t.readCell lcols (NUM_METADATA_COLUMNS + i) lslot
    let idx1 ← t.index.remove_index i oldv base_rid.raw
    let txn1 := if t.index.has i then
        txn.log_index_write (.remove base_rid.raw oldv i) else txn
    let idx2 ← idx1.update_index i x base_rid.raw
    let txn2 := if t.index.has i then
        txn1.log_index_write (.add base_rid.raw x i) else txn1
    let t2 := { t with index := idx2 }
    t2.updateTxnIndexLoop txn2 base_rid lcols lslot rest (i + 1)

/-- Modelled from the spec: the spec's schema bitmask of §4.8 step 5, the
or of `1 << i` over the supplied columns. -/
def schemaBitmask : List (Option Nat) → Nat → Nat → Nat
  | [], _, acc => acc
  | none :: rest, i, acc => schemaBitmask rest (i + 1) acc
  | some _ :: rest, i, acc => schemaBitmask rest (i + 1) ((acc ||| bit64 i) % 2 ^ 64)

/-- Modelled from the spec: steps 5, 7 and 8 of §4.8 for the transactional
update — write the tail record (BASE_RID, INDIRECTION = previous latest or
base, RID, merged user columns, SCHEMA_ENCODING bitmask, all at the tail
slot), log `(INDIRECTION, base_rid, old indirection)` and
`(RID, tail_rid, INVALID)`, and publish the tail rid in the base slot's
INDIRECTION column. -/
def Table.updateTxnWrites (t1 : Table) (txn : Transaction)
    (base_page tail_page : List Nat) (base_rid tail_rid : CRID)
    (old_latest : Nat) (updated_values : List Nat) (schema : Nat) :
    Option (Table × Transaction) := do
  let t2 ← t1.writeCell tail_page METADATA_BASE_RID tail_rid.slot base_rid.raw
  let t3 ← t2.writeCell tail_page METADATA_INDIRECTION tail_rid.slot
    (if old_latest = RID_INVALID then base_rid.raw else old_latest)
  let t4 ← t3.writeCell tail_page METADATA_RID tail_rid.slot tail_rid.raw
  let t5 ← t4.writeUserCols tail_page tail_rid.slot updated_values 0
  let t6 ← t5.writeCell tail_page METADATA_SCHEMA_ENCODING tail_rid.slot schema
  let txn1 := txn.log_write METADATA_INDIRECTION base_rid.raw old_latest
  let txn2 := txn1.log_write METADATA_RID tail_rid.raw RID_INVALID
  let t7 ← t6.writeCell base_page METADATA_INDIRECTION base_rid.slot tail_rid.raw
  pure (t7, txn2)

/-- Modelled from the spec: steps 3-8 of §4.8, after the lock of step 2
has been acquired. -/
def Table.updateTxnBody (t : Table) (txn : Transaction) (base_rid : CRID)
    (values : List (Option Nat)) (_fuel : Nat) : Option (Table × Transaction) := do
  let base_page ← t.page_dir.get base_rid
  let updated_values ← t.merge_values base_rid values
  let old_latest ← t.readCell base_page METADATA_INDIRECTION base_rid.slot
  let latest ← t.get_latest base_rid
  let lcols ← t.page_dir.get latest
  let tl ← t.next_tid_for_range base_rid.page_range
  let tail_page ← tl.2.page_dir.get tl.1
  let ti ← tl.2.updateTxnIndexLoop txn base_rid lcols latest.slot values 0
  ti.1.updateTxnWrites ti.2 base_page tail_page base_rid tl.1 old_latest
    updated_values (schemaBitmask values 0 0)

/-- Modelled from the spec: `update_query(key, values, Some(txn))`, the
transactional update dispatched by `Transaction::run` (absent from src's
table.rs, which has only the non-transactional version); §4.8 step 1
(lookup and primary-key checks, a duplicate new key marking the
transaction non-retryable), step 2 (exclusive lock on the base RID via
`try_lock_with_abort`, returning false on contention), then the body. -/
def Table.update_query_txn (t : Table) (lm : LockManager) (txn : Transaction)
    (key : Nat) (values : List (Option Nat)) (fuel : Nat) :
    Option (Bool × Table × LockManager × Transaction) := do
  let row ← t.find_row t.primary_key_index key fuel
  let pkv ← values.get? t.primary_key_index
  if pkv.isSome ∧ row.isSome then
    pure (false, t, lm, txn.set_aborted false)
  else
    match row with
    | none => pure (false, t, lm, txn)
    | some base_rid =>
      let lk := txn.try_lock_with_abort lm base_rid.raw .exclusive
      if lk.1 then do
        let bt ← t.updateTxnBody lk.2.1 base_rid values fuel
        pure (true, bt.1, lk.2.2, bt.2)
      else
        pure (false, t, lk.2.2, lk.2.1)

namespace Transaction

/-- transaction.rs `commit`/`rollback`, latch release: pop `n` handles
from the back of `locks_acquired` and unlock each (popping an empty
vector panics). -/
def unlockN (lm : LockManager) (handles : List LockHandle) :
    Nat → Option (LockManager × List LockHandle)
  | 0 => some (lm, handles)
  | n + 1 =>
    match handles.getLast? with
    | none => none
    | some h => do
      let lm2 ← lm.unlock h
      unlockN lm2 handles.dropLast n

/-- transaction.rs `rollback`, undo of one write-log entry: an index Add
is inverted by `remove_index`, an index Remove by `update_index`, and a
record mutation writes `original_value` back into `(column, rid)` through
the current page directory. -/
def undoMut (t : Table) (m : Mutation) : Option Table :=
  match m with
  | .index (.add rid value column) => do
    let idx ← t.index.remove_index column value rid
    pure { t with index := idx }
  | .index (.remove rid old_value column) => do
    let idx ← t.index.update_index column old_value rid
    pure { t with index := idx }
  | .record column rid orig => do
    let cols ← t.page_dir.get (CRID.mk rid)
    t.writeCell cols column (CRID.mk rid).slot orig

/-- transaction.rs `rollback`, undo of the last `n` write-log entries in
reverse order. -/
def undoN (t : Table) (wlog : List Mutation) :
    Nat → Option (Table × List Mutation)
  | 0 => some (t, wlog)
  | n + 1 =>
    match wlog.getLast? with
    | none => none
    | some m => do
      let t2 ← undoMut t m
      undoN t2 wlog.dropLast n

/-- transaction.rs `rollback`, outer loop over the bookkeeping entries in
reverse statement order: undo the statement's `num_muts` log entries,
then release its `num_locks` latches. -/
def rollbackEntries (t : Table) (lm : LockManager) :
    List ExecutedQuery → List Mutation → List LockHandle →
    Option (Table × LockManager × List Mutation × List LockHandle)
  | [], wlog, handles => some (t, lm, wlog, handles)
  | entry :: restRev, wlog, handles => do
    let u ← undoN t wlog entry.num_muts
    let l ← unlockN lm handles entry.num_locks
    rollbackEntries u.1 l.1 restRev u.2 l.2

/-- transaction.rs `rollback`. -/
def rollback (t : Table) (lm : LockManager) (txn : Transaction) :
    Option (Table × LockManager × Transaction) := do
  let r ← rollbackEntries t lm txn.query_log.reverse txn.write_log txn.locks_acquired
  pure (r.1, r.2.1,
    { txn with query_log := [], write_log := r.2.2.1, locks_acquired := r.2.2.2 })

/-- transaction.rs `commit`: discard the write log, then release every
statement's latches in reverse statement order and go idle. -/
def commit (lm : LockManager) (txn : Transaction) :
    Option (LockManager × Transaction) := do
  let txn1 := { txn with write_log := [] }
  let r ← commitEntries lm txn1.query_log.reverse txn1.locks_acquired
  pure (r.1, { txn1 with query_log := [], locks_acquired := r.2,
                         current_status := .Idle })
where
  commitEntries (lm : LockManager) :
      List ExecutedQuery → List LockHandle →
      Option (LockManager × List LockHandle)
    | [], handles => some (lm, handles)
    | entry :: restRev, handles => do
      let l ← unlockN lm handles entry.num_locks
      commitEntries l.1 restRev l.2

/-- transaction.rs `run`, statement loop: reset the per-statement
counters, execute, push the bookkeeping entry, and roll back as soon as
the status shows an abort. -/
def runLoop (t : Table) (lm : LockManager) (txn : Transaction)
    (fuel : Nat) : List TQuery → Option (Bool × Table × LockManager × Transaction)
  | [] => do
    let c ← commit lm txn
    pure (true, t, c.1, c.2)
  | q :: rest => do
    let txn1 := { txn with current_locks := 0, current_writes := 0 }
    let st ←
      match q with
      | .update k vs => t.update_query_txn lm txn1 k vs fuel
    let entry : ExecutedQuery :=
      { num_locks := st.2.2.2.current_locks, num_muts := st.2.2.2.current_writes }
    let txn2 := { st.2.2.2 with query_log := st.2.2.2.query_log ++ [entry] }
    match txn2.current_status with
    | .AbortedRetryable | .AbortedNotRetryable => do
      let r ← rollback st.2.1 st.2.2.1 txn2
      pure (false, r.1, r.2.1, r.2.2)
    | _ => runLoop st.2.1 st.2.2.1 txn2 fuel rest

/-- transaction.rs `run`. -/
def run (t : Table) (lm : LockManager) (txn : Transaction) (fuel : Nat) :
    Option (Bool × Table × LockManager × Transaction) :=
  runLoop t lm { txn with current_status := .Executing } fuel txn.queries

end Transaction

/-!
Section: the merge worker (table.rs `spawn_merge_thread`, lines 102-241).

One received range id is consolidated in a pass: the walk follows the
last-tail headers from the newest closed tail page backwards, each tail
slot is folded (newest first, skip-if-seen) into a rebuilt copy of its
base page, and the rebuilt pages are swapped into the page directory.
-/

/-- Fold `Store.copyBlock` over a list of `(src, dst)` block pairs (the
merge thread's per-column `clone_from_slice` loop). -/
def copyBlocks (st : Store) : List (Nat × Nat) → Store
  | [] => st
  | (a, b) :: rest => copyBlocks (st.copyBlock a b) rest

/-- table.rs merge thread, `merged.entry(base_page_id).or_insert_with`:
build the consolidated page's column list — the three static columns reuse
the base page's blocks, the remaining `2 + num_columns` get freshly
reserved blocks whose payload starts as a raw copy of the base page's. -/
def Table.mergeNewPage (t : Table) (base_page_id : Nat) :
    Option (List Nat × Table) := do
  let base_cols ← t.page_dir.get_page base_page_id
  let b0 ← base_cols.get? METADATA_INDIRECTION
  let b1 ← base_cols.get? METADATA_RID
  let b2 ← base_cols.get? METADATA_BASE_RID
  let n := NUM_METADATA_COLUMNS - NUM_STATIC_COLUMNS + t.num_columns
  let fresh := (List.range n).map (fun k => (t.disk_free + k) % 2 ^ 64)
  let srcs ← (List.range n).mapM (fun k => base_cols.get? (NUM_STATIC_COLUMNS + k))
  let st := copyBlocks t.store (srcs.zip fresh)
  pure ([b0, b1, b2] ++ fresh,
    { t with disk_free := (t.disk_free + n) % 2 ^ 64, store := st })

/-- table.rs merge thread, overlay loop: copy columns
`NUM_STATIC_COLUMNS + 1 ..` of the tail slot onto the consolidated page at
the base record's slot. -/
def Table.overlayCols (t : Table) (tail_cols merged_cols : List Nat)
    (tail_slot base_slot : Nat) : List Nat → Option Table
  | [] => some t
  | i :: rest => do
    let v ← t.readCell tail_cols i tail_slot
    let t2 ← t.writeCell merged_cols i base_slot v
    t2.overlayCols tail_cols merged_cols tail_slot base_slot rest

/-- table.rs merge thread, one tail slot: assert the BASE_RID cell is not
INVALID (`none` models the panic), dedupe through `seen`, get or create
the consolidated page, lower its TPS to the tail RID when that is smaller
and nonzero, then overlay the tail's columns at the base slot. -/
def Table.mergeSlot (t : Table) (tail_cols : List Nat) (tail_slot : Nat)
    (seen : List Nat) (merged : List (Nat × List Nat)) :
    Option (Table × List Nat × List (Nat × List Nat)) := do
  let base_rid ← t.readCell tail_cols METADATA_BASE_RID tail_slot
  if base_rid = RID_INVALID then none
  else if seen.contains base_rid then pure (t, seen, merged)
  else do
    let base_page_id := (CRID.mk base_rid).page
    let gm ←
      match alookup merged base_page_id with
      | some cols => pure (cols, t, merged)
      | none => do
        let nc ← t.mergeNewPage base_page_id
        pure (nc.1, nc.2, merged ++ [(base_page_id, nc.1)])
    let tid ← gm.2.1.readCell tail_cols METADATA_RID tail_slot
    let tps ← gm.2.1.read_page_tps gm.1
    let t2 ← if tps > tid ∧ tid ≠ 0 then gm.2.1.write_page_tps gm.1 tid
             else pure gm.2.1
    let cols := (List.range (NUM_METADATA_COLUMNS + t2.num_columns -
      (NUM_STATIC_COLUMNS + 1))).map (fun k => NUM_STATIC_COLUMNS + 1 + k)
    let t3 ← t2.overlayCols tail_cols gm.1 tail_slot (CRID.mk base_rid).slot cols
    pure (t3, seen ++ [base_rid], gm.2.2)

/-- table.rs merge thread, `for tail_slot in (0..PAGE_SLOTS).rev()`. -/
def Table.mergeSlots (tail_cols : List Nat) :
    List Nat → Table → List Nat → List (Nat × List Nat) →
    Option (Table × List Nat × List (Nat × List Nat))
  | [], t, seen, merged => some (t, seen, merged)
  | s :: rest, t, seen, merged => do
    let r ← t.mergeSlot tail_cols s seen merged
    Table.mergeSlots tail_cols rest r.1 r.2.1 r.2.2

/-- table.rs merge thread, the walk over closed tail pages newest-first:
follow each page's last-tail header while the page id is above the
already-merged watermark and not INVALID. -/
def Table.mergeWalk : Nat → Nat → Nat → Table → List Nat → List (Nat × List Nat) →
    Option (Table × List Nat × List (Nat × List Nat))
  | 0, _, _, _, _, _ => none
  | fuel + 1, tail_page_id, stop, t, seen, merged =>
    if tail_page_id > stop ∧ tail_page_id ≠ RID_INVALID then do
      let tail_cols ← t.page_dir.get_page tail_page_id
      let r ← Table.mergeSlots tail_cols (List.range PAGE_SLOTS).reverse t seen merged
      let next ← r.1.read_last_tail tail_cols
      Table.mergeWalk fuel next stop r.1 r.2.1 r.2.2
    else some (t, seen, merged)

/-- Replace every consolidated page's directory entry (the merge thread's
final `replace_page` loop). -/
def replacePages (pd : PageDirectory) : List (Nat × List Nat) → PageDirectory
  | [] => pd
  | (p, cols) :: rest => replacePages (pd.replace_page p cols) rest

/-- table.rs `spawn_merge_thread`, one received range id: read the last
closed tail page from the current tail page's header, raise
`merged_until`, consolidate the closed chain, then swap the rebuilt pages
into the page directory. -/
def Table.merge_pass (t : Table) (merge_range fuel : Nat) : Option Table := do
  let range ← t.range_dir.get? merge_range
  let cur_cols ← t.page_dir.get_page range.current_tail_page
  let last_page ← t.read_last_tail cur_cols
  let range2 := { range with merged_until := last_page }
  let t1 := { t with range_dir := t.range_dir.set merge_range range2 }
  let r ← Table.mergeWalk fuel last_page range.merged_until t1 [] []
  pure { r.1 with page_dir := replacePages r.1.page_dir r.2.2 }

/-!
Section: rollback bookkeeping, spec side.

To state what `Transaction::rollback` restores, each logged record
mutation is resolved to the storage cell it writes, and a write log is
scanned oldest-first for the first original value logged against a cell —
since rollback replays originals newest-first, that earliest original is
the value a cell ends at.
-/

/-- The storage cell `(block, slot)` a logged record mutation writes back
to, through the current page directory; `none` for index mutations or when
the directory cannot resolve the RID. -/
def cellOf (t : Table) (m : Mutation) : Option (Nat × Nat) :=
  match m with
  | .record col rid _ =>
    (t.page_dir.get (CRID.mk rid)).bind
      (fun cols => (cols.get? col).map (fun b => (b, (CRID.mk rid).slot)))
  | .index _ => none

/-- The first original value a write log (oldest first) records against a
cell. -/
def logOriginal (t : Table) : List Mutation → Nat × Nat → Option Nat
  | [], _ => none
  | m :: rest, c =>
    match m with
    | .record col rid orig =>
      if cellOf t (.record col rid orig) = some c then some orig
      else logOriginal t rest c
    | .index _ => logOriginal t rest c

/-- A logged mutation `Transaction::rollback` can undo without panicking:
a record mutation must resolve to a cell, an index mutation's column must
be within the index vector. -/
def undoable (t : Table) (m : Mutation) : Prop :=
  match m with
  | .record _ _ _ => (cellOf t m).isSome
  | .index (.add _ _ col) => col < t.index.indices.length
  | .index (.remove _ _ col) => col < t.index.indices.length

/-- The parts of the table state the merge walk leaves alone, relative to
a block-id watermark `D`: the directory, the index, the column count, and
every store cell in a block below `D`; the block counter stays at or above
`D`. -/
def MergeFrame (D : Nat) (t t2 : Table) : Prop :=
  t2.page_dir = t.page_dir ∧ t2.index = t.index ∧
  t2.num_columns = t.num_columns ∧
  t2.primary_key_index = t.primary_key_index ∧
  D ≤ t2.disk_free ∧
  (∀ b s, b < D → t2.store.read b s = t.store.read b s)

/-- Every block id a merged-pages entry holds at a non-static column index
is at or above the watermark. -/
def GoodMerged (D : Nat) (merged : List (Nat × List Nat)) : Prop :=
  ∀ pc ∈ merged, ∀ i b, NUM_STATIC_COLUMNS ≤ i → pc.2.get? i = some b → D ≤ b

/-!
Section: concrete states the claims are evaluated on.

The claims are settled below partly on closed evaluations of the query
methods on small handcrafted tables.  Base records are placed on logical
page 5 or 0/7; blocks never written are absent from the store and read as
zero, as a freshly reserved disk block does.
-/

/-- A one-record table: base record at page 5 (blocks 100-106), slot 3,
RID 2563, primary key 77, second column 10; the key column is indexed;
`next_tid` is the first tail id the source allocates. -/
def updTable : Table :=
  { num_columns := 2, primary_key_index := 0,
    index := { indices := [some [(77, [2563])], none] },
    next_rid := 2564, next_tid := 2 ^ 64 - 2,
    page_dir := { directory := [(5, [100, 101, 102, 103, 104, 105, 106])] },
    range_dir := [], disk_free := 200,
    store := { blocks := [
      (100, [(3, RID_INVALID)]),
      (101, [(3, 2563)]),
      (103, [(0, RID_INVALID)]),
      (105, [(3, 77)]),
      (106, [(3, 10)]) ], journal := [] },
    merge_queue := [] }

/-- `update_query(77, [None, Some 55])` on `updTable`. -/
def updResult : Option (Bool × Table) := updTable.update_query 77 [none, some 55] 10

/-- The tail RID `updResult` allocates (`updTable.next_tid`). -/
def tailRid : CRID := CRID.mk (2 ^ 64 - 2)

/-- Read back, from the updated table: the success flag; the tail slot's
BASE_RID, INDIRECTION, RID, both user columns and SCHEMA_ENCODING; the
SCHEMA_ENCODING cell at the base record's slot of the tail page; and the
base slot's INDIRECTION. -/
def updReadback : Option (Bool × Nat × Nat × Nat × Nat × Nat × Nat × Nat × Nat) := do
  let p ← updResult
  let tp ← p.2.page_dir.get tailRid
  let bp ← p.2.page_dir.get (CRID.mk 2563)
  let a1 ← p.2.readCell tp METADATA_BASE_RID tailRid.slot
  let a2 ← p.2.readCell tp METADATA_INDIRECTION tailRid.slot
  let a3 ← p.2.readCell tp METADATA_RID tailRid.slot
  let a4 ← p.2.readCell tp (NUM_METADATA_COLUMNS + 0) tailRid.slot
  let a5 ← p.2.readCell tp (NUM_METADATA_COLUMNS + 1) tailRid.slot
  let a6 ← p.2.readCell tp METADATA_SCHEMA_ENCODING tailRid.slot
  let a7 ← p.2.readCell tp METADATA_SCHEMA_ENCODING (CRID.mk 2563).slot
  let a8 ← p.2.readCell bp METADATA_INDIRECTION (CRID.mk 2563).slot
  pure (p.1, a1, a2, a3, a4, a5, a6, a7, a8)

/-- `updTable` with a second index on column 1 mapping the record's current
value 10 to its RID. -/
def c3Table : Table :=
  { num_columns := 2, primary_key_index := 0,
    index := { indices := [some [(77, [2563])], some [(10, [2563])]] },
    next_rid := 2564, next_tid := 2 ^ 64 - 2,
    page_dir := { directory := [(5, [100, 101, 102, 103, 104, 105, 106])] },
    range_dir := [], disk_free := 200,
    store := { blocks := [
      (100, [(3, RID_INVALID)]),
      (101, [(3, 2563)]),
      (103, [(0, RID_INVALID)]),
      (105, [(3, 77)]),
      (106, [(3, 10)]) ], journal := [] },
    merge_queue := [] }

/-- Two consecutive updates of the indexed column 1: 10 to 55, then 55 to
66. -/
def c3Result : Option (Bool × Table) :=
  (c3Table.update_query 77 [none, some 55] 10).bind
    (fun p => p.2.update_query 77 [none, some 66] 10)

/-- Two base records at page 0 (blocks 10-16), slots 0 and 1, primary keys
10 and 20; record 1 (key 20) already has one tail record at page 7
(blocks 20-26), slot 510 (tail RID `2 ^ 64 - 3586`), with latest column
values [20, 99]. -/
def c4Table : Table :=
  { num_columns := 2, primary_key_index := 0,
    index := { indices := [some [(10, [0]), (20, [1])], none] },
    next_rid := 2, next_tid := 2 ^ 64 - 2 - 4096,
    page_dir := { directory := [
      (0, [10, 11, 12, 13, 14, 15, 16]),
      (7, [20, 21, 22, 23, 24, 25, 26]) ] },
    range_dir := [], disk_free := 200,
    store := { blocks := [
      (10, [(0, RID_INVALID), (1, 2 ^ 64 - 3586)]),
      (11, [(0, 0), (1, 1)]),
      (13, [(0, RID_INVALID)]),
      (15, [(0, 10), (1, 20)]),
      (16, [(0, 5), (1, 7)]),
      (20, [(0, 1)]),
      (21, [(0, 2 ^ 64 - 3586)]),
      (22, [(0, 1)]),
      (23, [(0, RID_INVALID)]),
      (24, [(0, 2)]),
      (25, [(0, 20)]),
      (26, [(0, 99)]) ], journal := [] },
    merge_queue := [] }

/-- `delete_query(20)` on `c4Table`. -/
def c4Result : Option (Bool × Table) := c4Table.delete_query 20 10

/-- Two base records at page 0 with primary keys 10 and 11 and column-1
values 7 and 9; record 1 (key 11) is tombstoned: its RID column holds
INVALID. -/
def c5Table : Table :=
  { num_columns := 2, primary_key_index := 0,
    index := { indices := [some [(10, [0]), (11, [1])], none] },
    next_rid := 2, next_tid := 2 ^ 64 - 2,
    page_dir := { directory := [(0, [10, 11, 12, 13, 14, 15, 16])] },
    range_dir := [], disk_free := 200,
    store := { blocks := [
      (10, [(0, RID_INVALID), (1, RID_INVALID)]),
      (11, [(0, 0), (1, RID_INVALID)]),
      (13, [(0, RID_INVALID)]),
      (15, [(0, 10), (1, 11)]),
      (16, [(0, 7), (1, 9)]) ], journal := [] },
    merge_queue := [] }

/-- A merge scenario: base records 2560 (page 5, key 10, columns [10, 5])
and 0 (page 0, key 9, columns [9, 4]); record 2560 has one tail record at
the closed tail page 1, slot 511, RID `2 ^ 64 - 1025`, columns [55, 77];
the current tail page 2 points back at page 1 through its header.  The
base pages carry TPS = INVALID, as `insert_query` initializes them. -/
def c8Table : Table :=
  { num_columns := 2, primary_key_index := 0,
    index := { indices := [some [(10, [2560]), (9, [0])], none] },
    next_rid := 2561, next_tid := 2 ^ 64 - 2 - 1500,
    page_dir := { directory := [
      (5, [100, 101, 102, 103, 104, 105, 106]),
      (0, [500, 501, 502, 503, 504, 505, 506]),
      (1, [200, 201, 202, 203, 204, 205, 206]),
      (2, [300, 301, 302, 303, 304, 305, 306]) ] },
    range_dir := [{ next_tid := 2 ^ 64 - 2 - 1500, current_tail_page := 2,
                    merged_until := 0 }],
    disk_free := 400,
    store := { blocks := [
      (100, [(0, 2 ^ 64 - 1025)]),
      (101, [(0, 2560)]),
      (103, [(0, RID_INVALID)]),
      (104, [(0, 0)]),
      (105, [(0, 10)]),
      (106, [(0, 5)]),
      (500, [(0, RID_INVALID)]),
      (501, [(0, 0)]),
      (503, [(0, RID_INVALID)]),
      (505, [(0, 9)]),
      (506, [(0, 4)]),
      (200, [(511, 2560)]),
      (202, [(511, 2560)]),
      (201, [(511, 2 ^ 64 - 1025)]),
      (204, [(511, 3)]),
      (205, [(511, 55)]),
      (206, [(511, 77)]),
      (303, [(0, 1)]) ], journal := [] },
    merge_queue := [] }

/-- `c8Table` extended with a third base record, RID 3072 at page 6
(blocks 150-156), primary key 30, columns [30, 8], never updated: no tail
slot refers to it, so the merge pass neither rebuilds its page nor
touches its blocks. -/
def c8wTable : Table :=
  { num_columns := 2, primary_key_index := 0,
    index := { indices := [some [(9, [0]), (10, [2560]), (30, [3072])], none] },
    next_rid := 3073, next_tid := 2 ^ 64 - 2 - 1500,
    page_dir := { directory := [
      (5, [100, 101, 102, 103, 104, 105, 106]),
      (0, [500, 501, 502, 503, 504, 505, 506]),
      (6, [150, 151, 152, 153, 154, 155, 156]),
      (1, [200, 201, 202, 203, 204, 205, 206]),
      (2, [300, 301, 302, 303, 304, 305, 306]) ] },
    range_dir := [{ next_tid := 2 ^ 64 - 2 - 1500, current_tail_page := 2,
                    merged_until := 0 }],
    disk_free := 400,
    store := { blocks := [
      (100, [(0, 2 ^ 64 - 1025)]),
      (101, [(0, 2560)]),
      (103, [(0, RID_INVALID)]),
      (104, [(0, 0)]),
      (105, [(0, 10)]),
      (106, [(0, 5)]),
      (500, [(0, RID_INVALID)]),
      (501, [(0, 0)]),
      (503, [(0, RID_INVALID)]),
      (505, [(0, 9)]),
      (506, [(0, 4)]),
      (150, [(0, RID_INVALID)]),
      (151, [(0, 3072)]),
      (153, [(0, RID_INVALID)]),
      (155, [(0, 30)]),
      (156, [(0, 8)]),
      (200, [(511, 2560)]),
      (202, [(511, 2560)]),
      (201, [(511, 2 ^ 64 - 1025)]),
      (204, [(511, 3)]),
      (205, [(511, 55)]),
      (206, [(511, 77)]),
      (303, [(0, 1)]) ], journal := [] },
    merge_queue := [] }

/-- The table after the merge pass over `c8wTable` (its range 0). -/
def c8wMerged : Table := (c8wTable.merge_pass 0 10).getD c8wTable

/-- A two-record table for the transaction run: base records 2560 (key 10,
column-1 value 5) and 2563 (key 20, column-1 value 7) at page 5, both
columns indexed. -/
def c9Table : Table :=
  { num_columns := 2, primary_key_index := 0,
    index := { indices := [some [(10, [2560]), (20, [2563])],
                           some [(5, [2560]), (7, [2563])]] },
    next_rid := 2564, next_tid := 2 ^ 64 - 2,
    page_dir := { directory := [(5, [100, 101, 102, 103, 104, 105, 106])] },
    range_dir := [], disk_free := 200,
    store := { blocks := [
      (100, [(0, RID_INVALID), (3, RID_INVALID)]),
      (101, [(0, 2560), (3, 2563)]),
      (103, [(0, RID_INVALID)]),
      (105, [(0, 10), (3, 20)]),
      (106, [(0, 5), (3, 7)]) ], journal := [] },
    merge_queue := [] }

/-- A lock table in which some other transaction already holds the
exclusive latch on RID 2563. -/
def c9Locks : LockManager := { locks := [(2563, { shared := 0, exclusive := true })] }

/-- A fresh transaction of two updates; the second statement's key 20
resolves to RID 2563, whose latch `c9Locks` already holds, so the
statement aborts and the run rolls back. -/
def c9Txn : Transaction :=
  { query_log := [], queries := [.update 10 [none, some 55], .update 20 [none, some 9]],
    write_log := [], locks_acquired := [], current_writes := 0, current_locks := 0,
    current_status := .Idle }

/-- The aborted run of `c9Txn` against `c9Table` under `c9Locks`. -/
def c9Run : Option (Bool × Table × LockManager × Transaction) :=
  Transaction.run c9Table c9Locks c9Txn 10

/-- A transaction as `rollback` receives it: one bookkeeping entry, one
logged record mutation (the base INDIRECTION of RID 2563, original
INVALID) and one acquired exclusive latch on 2563. -/
def c9wTxn : Transaction :=
  { query_log := [{ num_locks := 1, num_muts := 1 }], queries := [],
    write_log := [.record 0 2563 RID_INVALID],
    locks_acquired := [{ rid := 2563, lock_type := .exclusive }],
    current_writes := 1, current_locks := 1, current_status := .AbortedRetryable }

/-!
Section: theorems.

Helper lemmas come first, then the theorems the claims are settled by.
-/

set_option maxRecDepth 10000

/-- Helper: a bitwise or of disjoint parts is an addition.  Used to relate
the `TailRID.new_tail` encoding to the decoding accessors. -/
theorem lor_shiftLeft_eq_add (a b k : Nat) (h : a < 2 ^ k) :
    a ||| (b <<< k) = b * 2 ^ k + a := by
  apply Nat.eq_of_testBit_eq
  intro i
  rcases Nat.lt_or_ge i k with hik | hik
  · have hb : (b <<< k).testBit i = false := by
      simp [Nat.testBit_shiftLeft, Nat.not_le.mpr hik]
    have hadd : (b * 2 ^ k + a).testBit i = a.testBit i := by
      have := Nat.testBit_mul_pow_two_add b h i
      simpa [Nat.mul_comm, hik] using this
    simp [Nat.testBit_lor, hb, hadd]
  · have ha : a.testBit i = false :=
      Nat.testBit_lt_two_pow (Nat.lt_of_lt_of_le h (Nat.pow_le_pow_right (by omega) hik))
    have hb : (b <<< k).testBit i = b.testBit (i - k) := by
      simp [Nat.testBit_shiftLeft, hik]
    have hadd : (b * 2 ^ k + a).testBit i = b.testBit (i - k) := by
      have := Nat.testBit_mul_pow_two_add b h i
      simpa [Nat.mul_comm, Nat.not_lt.mpr hik] using this
    simp [Nat.testBit_lor, ha, hb, hadd]

/-- Helper for C10: every id handed out by a wrap-free reservation
sequence starting at counter `c ≥ 1` stays in `[1, 2 ^ 64 - 1)`. -/
theorem runReserves_ids_bounded (ops : List Nat) :
    ∀ c : Nat, 1 ≤ c → c + ops.sum < 2 ^ 64 - 1 →
      ∀ idv ∈ (DiskManager.runReserves c ops).1, 1 ≤ idv ∧ idv < 2 ^ 64 - 1 := by
  induction ops with
  | nil =>
    intro c _ _ idv hmem
    simp [DiskManager.runReserves] at hmem
  | cons n rest ih =>
    intro c hc hsum idv hmem
    simp only [DiskManager.runReserves, List.mem_cons, List.sum_cons] at hmem hsum
    rcases hmem with rfl | hmem
    · exact ⟨hc, by omega⟩
    · have hwrap : (c + n) % 2 ^ 64 = c + n := Nat.mod_eq_of_lt (by omega)
      have := ih ((c + n) % 2 ^ 64) (by omega) (by omega) idv
      exact this hmem

theorem alookup_aremove_ne {α : Type} (l : List (Nat × α)) (k s : Nat) (h : s ≠ k) :
    alookup (aremove l k) s = alookup l s := by
  induction l with
  | nil => rfl
  | cons p rest ih =>
    obtain ⟨k2, v⟩ := p
    by_cases hp : k2 = k
    · subst hp
      have h1 : aremove ((k2, v) :: rest) k2 = aremove rest k2 := by
        simp [aremove, List.filter_cons]
      rw [h1, ih]
      simp only [alookup]
      rw [if_neg (by omega)]
    · have h1 : aremove ((k2, v) :: rest) k = (k2, v) :: aremove rest k := by
        simp [aremove, List.filter_cons, hp]
      rw [h1]
      simp only [alookup]
      by_cases hks : k2 = s
      · rw [if_pos hks, if_pos hks]
      · rw [if_neg hks, if_neg hks]
        exact ih

theorem alookup_ainsert_self {α : Type} (l : List (Nat × α)) (k : Nat) (v : α) :
    alookup (ainsert l k v) k = some v := by
  simp [ainsert, alookup]

theorem alookup_ainsert_ne {α : Type} (l : List (Nat × α)) (k s : Nat) (v : α) (h : s ≠ k) :
    alookup (ainsert l k v) s = alookup l s := by
  simp only [ainsert, alookup]
  rw [if_neg (by omega)]
  exact alookup_aremove_ne l k s h

theorem Store.read_write_self (st : Store) (b s v : Nat) :
    (st.write b s v).read b s = v := by
  simp [Store.write, Store.read, Phys.readSlot, Phys.writeSlot, alookup_ainsert_self]

theorem Store.read_write_ne (st : Store) (b s v b2 s2 : Nat) (h : (b, s) ≠ (b2, s2)) :
    (st.write b s v).read b2 s2 = st.read b2 s2 := by
  simp only [Store.write, Store.read]
  by_cases hb : b = b2
  · subst hb
    have hs : s2 ≠ s := by
      intro hcon; exact h (by rw [hcon])
    rw [alookup_ainsert_self]
    simp only [Option.getD_some, Phys.readSlot, Phys.writeSlot]
    rw [alookup_ainsert_ne _ _ _ _ hs]
  · rw [alookup_ainsert_ne _ _ _ _ (by omega)]

theorem undoMut_page_dir (t t2 : Table) (m : Mutation)
    (h : Transaction.undoMut t m = some t2) : t2.page_dir = t.page_dir := by
  cases m with
  | record col rid orig =>
    simp only [Transaction.undoMut, Option.bind_eq_bind] at h
    cases hc : t.page_dir.get (CRID.mk rid) with
    | none => rw [hc] at h; simp at h
    | some cols =>
      rw [hc] at h
      simp only [Option.some_bind, Table.writeCell] at h
      cases hb : cols.get? col with
      | none => rw [hb] at h; simp at h
      | some b => rw [hb] at h; simp at h; cases h; rfl
  | index im =>
    cases im with
    | add rid v col =>
      simp only [Transaction.undoMut, Option.bind_eq_bind] at h
      cases hi : t.index.remove_index col v rid with
      | none => rw [hi] at h; simp at h
      | some idx => rw [hi] at h; simp at h; cases h; rfl
    | remove rid v col =>
      simp only [Transaction.undoMut, Option.bind_eq_bind] at h
      cases hi : t.index.update_index col v rid with
      | none => rw [hi] at h; simp at h
      | some idx => rw [hi] at h; simp at h; cases h; rfl

theorem undoMut_read (t t2 : Table) (m : Mutation)
    (h : Transaction.undoMut t m = some t2) (b s : Nat) :
    t2.store.read b s =
      (match m with
       | .record _ _ orig => if cellOf t m = some (b, s) then orig else t.store.read b s
       | .index _ => t.store.read b s) := by
  cases m with
  | record col rid orig =>
    simp only [Transaction.undoMut, Option.bind_eq_bind] at h
    cases hc : t.page_dir.get (CRID.mk rid) with
    | none => rw [hc] at h; simp at h
    | some cols =>
      rw [hc] at h
      simp only [Option.some_bind, Table.writeCell] at h
      cases hb : cols.get? col with
      | none => rw [hb] at h; simp at h
      | some blk =>
        rw [hb] at h
        simp at h
        cases h
        simp only [cellOf, hc, Option.some_bind, hb, Option.map_some]
        by_cases hcell : (blk, (CRID.mk rid).slot) = (b, s)
        · rw [if_pos (by simpa using hcell)]
          have h1 : blk = b := congrArg Prod.fst hcell
          have h2 : (CRID.mk rid).slot = s := congrArg Prod.snd hcell
          subst h1; subst h2
          exact Store.read_write_self _ _ _ _
        · rw [if_neg (by simpa using hcell)]
          exact Store.read_write_ne _ _ _ _ _ _ hcell
  | index im =>
    cases im with
    | add rid v col =>
      simp only [Transaction.undoMut, Option.bind_eq_bind] at h
      cases hi : t.index.remove_index col v rid with
      | none => rw [hi] at h; simp at h
      | some idx => rw [hi] at h; simp at h; cases h; rfl
    | remove rid v col =>
      simp only [Transaction.undoMut, Option.bind_eq_bind] at h
      cases hi : t.index.update_index col v rid with
      | none => rw [hi] at h; simp at h
      | some idx => rw [hi] at h; simp at h; cases h; rfl

open Transaction in
theorem undoN_concat (t : Table) (ws : List Mutation) (m : Mutation) :
    undoN t (ws ++ [m]) (ws.length + 1) =
      (undoMut t m).bind (fun t2 => undoN t2 ws ws.length) := by
  simp only [undoN, List.getLast?_concat, List.dropLast_concat]
  cases Transaction.undoMut t m <;> simp

theorem undoMut_index_length (t t2 : Table) (m : Mutation)
    (h : Transaction.undoMut t m = some t2) :
    t2.index.indices.length = t.index.indices.length := by
  cases m with
  | record col rid orig =>
    simp only [Transaction.undoMut, Option.bind_eq_bind] at h
    cases hc : t.page_dir.get (CRID.mk rid) with
    | none => rw [hc] at h; simp at h
    | some cols =>
      rw [hc] at h
      simp only [Option.some_bind, Table.writeCell] at h
      cases hb : cols.get? col with
      | none => rw [hb] at h; simp at h
      | some b => rw [hb] at h; simp at h; cases h; rfl
  | index im =>
    cases im with
    | add rid v col =>
      simp only [Transaction.undoMut, Option.bind_eq_bind, Index.remove_index] at h
      cases hi : t.index.indices.get? col with
      | none => rw [hi] at h; simp at h
      | some entry =>
        rw [hi] at h
        cases entry with
        | none => simp at h; cases h; rfl
        | some bt => simp at h; cases h; simp [List.length_set]
    | remove rid v col =>
      simp only [Transaction.undoMut, Option.bind_eq_bind, Index.update_index] at h
      cases hi : t.index.indices.get? col with
      | none => rw [hi] at h; simp at h
      | some entry =>
        rw [hi] at h
        cases entry with
        | none => simp at h; cases h; rfl
        | some bt => simp at h; cases h; simp [List.length_set]

theorem cellOf_congr (t t2 : Table) (m : Mutation)
    (h : t2.page_dir = t.page_dir) : cellOf t2 m = cellOf t m := by
  cases m <;> simp [cellOf, h]

theorem undoable_congr (t t2 : Table) (m : Mutation)
    (hpd : t2.page_dir = t.page_dir)
    (hil : t2.index.indices.length = t.index.indices.length) :
    undoable t2 m ↔ undoable t m := by
  cases m with
  | record col rid orig => simp [undoable, cellOf_congr t t2 _ hpd]
  | index im => cases im <;> simp [undoable, hil]

theorem logOriginal_congr (t t2 : Table) (ws : List Mutation) (c : Nat × Nat)
    (h : t2.page_dir = t.page_dir) : logOriginal t2 ws c = logOriginal t ws c := by
  induction ws with
  | nil => rfl
  | cons m rest ih =>
    cases m with
    | record col rid orig =>
      simp only [logOriginal, cellOf_congr t t2 _ h, ih]
    | index im => simp only [logOriginal, ih]

theorem undoMut_succeeds (t : Table) (m : Mutation) (h : undoable t m) :
    (Transaction.undoMut t m).isSome := by
  cases m with
  | record col rid orig =>
    simp only [undoable, cellOf] at h
    cases hc : t.page_dir.get (CRID.mk rid) with
    | none => rw [hc] at h; simp at h
    | some cols =>
      rw [hc] at h
      simp only [Option.some_bind] at h
      cases hb : cols.get? col with
      | none => rw [hb] at h; simp at h
      | some b =>
        have hb2 : cols[col]? = some b := by
          simpa [List.get?_eq_getElem?] using hb
        simp [Transaction.undoMut, hc, Table.writeCell, hb2]
  | index im =>
    cases im with
    | add rid v col =>
      simp only [undoable] at h
      have hsome : (t.index.indices.get? col).isSome := by
        rw [List.get?_eq_getElem?, List.getElem?_eq_getElem h]
        rfl
      cases hi : t.index.indices.get? col with
      | none => rw [hi] at hsome; simp at hsome
      | some entry =>
        have hi2 : t.index.indices[col]? = some entry := by
          simpa [List.get?_eq_getElem?] using hi
        cases entry <;> simp [Transaction.undoMut, Index.remove_index, hi2]
    | remove rid v col =>
      simp only [undoable] at h
      have hsome : (t.index.indices.get? col).isSome := by
        rw [List.get?_eq_getElem?, List.getElem?_eq_getElem h]
        rfl
      cases hi : t.index.indices.get? col with
      | none => rw [hi] at hsome; simp at hsome
      | some entry =>
        have hi2 : t.index.indices[col]? = some entry := by
          simpa [List.get?_eq_getElem?] using hi
        cases entry <;> simp [Transaction.undoMut, Index.update_index, hi2]

theorem logOriginal_concat (t : Table) (ws : List Mutation) (m : Mutation) (c : Nat × Nat) :
    logOriginal t (ws ++ [m]) c =
      match logOriginal t ws c with
      | some v => some v
      | none =>
        match m with
        | .record _ _ orig => if cellOf t m = some c then some orig else none
        | .index _ => none := by
  induction ws with
  | nil =>
    cases m with
    | record col rid orig => simp [logOriginal]
    | index im => simp [logOriginal]
  | cons m2 rest ih =>
    cases m2 with
    | record col rid orig =>
      simp only [List.cons_append, logOriginal]
      by_cases hc : cellOf t (.record col rid orig) = some c
      · rw [if_pos hc, if_pos hc]
      · rw [if_neg hc, if_neg hc]; exact ih
    | index im => simp only [List.cons_append, logOriginal]; exact ih

theorem undoN_full (ws : List Mutation) : ∀ (t : Table),
    (∀ m ∈ ws, undoable t m) →
    ∃ t', Transaction.undoN t ws ws.length = some (t', []) ∧
      t'.page_dir = t.page_dir ∧
      t'.index.indices.length = t.index.indices.length ∧
      ∀ b s, t'.store.read b s = (logOriginal t ws (b, s)).getD (t.store.read b s) := by
  induction ws using List.reverseRecOn with
  | nil =>
    intro t _
    exact ⟨t, rfl, rfl, rfl, fun b s => rfl⟩
  | append_singleton ws m ih =>
    intro t hall
    have hm : undoable t m := hall m (by simp)
    obtain ⟨t2, ht2⟩ := Option.isSome_iff_exists.mp (undoMut_succeeds t m hm)
    have hpd2 : t2.page_dir = t.page_dir := undoMut_page_dir t t2 m ht2
    have hil2 : t2.index.indices.length = t.index.indices.length :=
      undoMut_index_length t t2 m ht2
    have hall2 : ∀ m2 ∈ ws, undoable t2 m2 := fun m2 hm2 =>
      (undoable_congr t t2 m2 hpd2 hil2).mpr (hall m2 (by simp [hm2]))
    obtain ⟨tf, hrun, hpd, hil, hread⟩ := ih t2 hall2
    have hlen : (ws ++ [m]).length = ws.length + 1 := by simp
    refine ⟨tf, ?_, hpd.trans hpd2, hil.trans hil2, ?_⟩
    · rw [hlen, undoN_concat, ht2]
      simpa using hrun
    · intro b s
      rw [hread b s, logOriginal_congr t t2 ws (b, s) hpd2, logOriginal_concat]
      have hr2 := undoMut_read t t2 m ht2 b s
      cases hlo : logOriginal t ws (b, s) with
      | some v => simp
      | none =>
        simp only [Option.getD_none]
        rw [hr2]
        cases m with
        | record col rid orig =>
          by_cases hc : cellOf t (Mutation.record col rid orig) = some (b, s)
          · simp [hc]
          · simp [hc]
        | index im => simp

theorem unlock_stateOf (lm lm2 : LockManager) (h : LockHandle)
    (hu : lm.unlock h = some lm2) :
    (∀ rid, rid ≠ h.rid → lm2.stateOf rid = lm.stateOf rid) ∧
    (h.lock_type = LockType.exclusive →
      lm2.stateOf h.rid = { lm.stateOf h.rid with exclusive := false }) ∧
    (∀ rid, (alookup lm.locks rid).isSome → (alookup lm2.locks rid).isSome) := by
  simp only [LockManager.unlock] at hu
  cases hst : alookup lm.locks h.rid with
  | none => rw [hst] at hu; simp at hu
  | some st =>
    rw [hst] at hu
    simp at hu
    cases hu
    refine ⟨?_, ?_, ?_⟩
    · intro rid hne
      simp only [LockManager.stateOf]
      rw [alookup_ainsert_ne _ _ _ _ hne]
    · intro hex
      simp only [LockManager.stateOf, hex]
      rw [alookup_ainsert_self, hst]
      rfl
    · intro rid hsome
      by_cases hr : rid = h.rid
      · subst hr; rw [alookup_ainsert_self]; rfl
      · rw [alookup_ainsert_ne _ _ _ _ hr]; exact hsome

theorem unlockN_concat (lm : LockManager) (hs : List LockHandle) (h : LockHandle) :
    Transaction.unlockN lm (hs ++ [h]) (hs.length + 1) =
      (lm.unlock h).bind (fun lm2 => Transaction.unlockN lm2 hs hs.length) := by
  simp only [Transaction.unlockN, List.getLast?_concat, List.dropLast_concat]
  cases lm.unlock h <;> simp

theorem unlockN_full (handles : List LockHandle) : ∀ (lm : LockManager),
    (∀ h ∈ handles, (alookup lm.locks h.rid).isSome ∧
      h.lock_type = LockType.exclusive) →
    ∃ lm', Transaction.unlockN lm handles handles.length = some (lm', []) ∧
      ∀ rid, lm'.stateOf rid =
        if rid ∈ handles.map LockHandle.rid
        then { lm.stateOf rid with exclusive := false }
        else lm.stateOf rid := by
  induction handles using List.reverseRecOn with
  | nil =>
    intro lm _
    refine ⟨lm, rfl, ?_⟩
    intro rid
    simp
  | append_singleton hs h ih =>
    intro lm hall
    obtain ⟨hsome, hex⟩ := hall h (by simp)
    obtain ⟨st, hst⟩ := Option.isSome_iff_exists.mp hsome
    have hu : (lm.unlock h).isSome := by
      simp [LockManager.unlock, hst]
    obtain ⟨lm2, hlm2⟩ := Option.isSome_iff_exists.mp hu
    obtain ⟨hoff, hat, hkeep⟩ := unlock_stateOf lm lm2 h hlm2
    have hall2 : ∀ h2 ∈ hs, (alookup lm2.locks h2.rid).isSome ∧
        h2.lock_type = LockType.exclusive := by
      intro h2 hh2
      obtain ⟨hs2, he2⟩ := hall h2 (by simp [hh2])
      exact ⟨hkeep h2.rid hs2, he2⟩
    obtain ⟨lmf, hrun, hstate⟩ := ih lm2 hall2
    have hlen : (hs ++ [h]).length = hs.length + 1 := by simp
    refine ⟨lmf, ?_, ?_⟩
    · rw [hlen, unlockN_concat, hlm2]
      simpa using hrun
    · intro rid
      rw [hstate rid]
      by_cases hin : rid ∈ hs.map LockHandle.rid
      · rw [if_pos hin, if_pos (by simp [hin])]
        by_cases hr : rid = h.rid
        · subst hr
          rw [hat hex]
        · rw [hoff rid hr]
      · rw [if_neg hin]
        by_cases hr : rid = h.rid
        · subst hr
          rw [if_pos (by simp), hat hex]
        · rw [hoff rid hr, if_neg (by simp [hin, hr])]

theorem undoN_add (a : Nat) : ∀ (b : Nat) (t : Table) (w : List Mutation),
    Transaction.undoN t w (a + b) =
      (Transaction.undoN t w a).bind (fun u => Transaction.undoN u.1 u.2 b) := by
  induction a with
  | zero =>
    intro b t w
    simp [Transaction.undoN]
  | succ a ih =>
    intro b t w
    have h1 : a + 1 + b = (a + b) + 1 := by omega
    rw [h1]
    show Transaction.undoN t w ((a + b) + 1) = _
    simp only [Transaction.undoN]
    cases w.getLast? with
    | none => simp
    | some m =>
      cases h2 : Transaction.undoMut t m with
      | none => simp [h2]
      | some t2 =>
        simp only [h2, Option.some_bind]
        exact ih b t2 w.dropLast

theorem unlockN_add (a : Nat) : ∀ (b : Nat) (lm : LockManager) (hs : List LockHandle),
    Transaction.unlockN lm hs (a + b) =
      (Transaction.unlockN lm hs a).bind (fun l => Transaction.unlockN l.1 l.2 b) := by
  induction a with
  | zero =>
    intro b lm hs
    simp [Transaction.unlockN]
  | succ a ih =>
    intro b lm hs
    have h1 : a + 1 + b = (a + b) + 1 := by omega
    rw [h1]
    show Transaction.unlockN lm hs ((a + b) + 1) = _
    simp only [Transaction.unlockN]
    cases hs.getLast? with
    | none => simp
    | some h =>
      cases h2 : lm.unlock h with
      | none => simp [h2]
      | some lm2 =>
        simp only [h2, Option.some_bind]
        exact ih b lm2 hs.dropLast

theorem rollbackEntries_split (qRev : List ExecutedQuery) :
    ∀ (t : Table) (lm : LockManager) (w : List Mutation) (hs : List LockHandle),
    Transaction.rollbackEntries t lm qRev w hs =
      (Transaction.undoN t w (qRev.map ExecutedQuery.num_muts).sum).bind (fun u =>
        (Transaction.unlockN lm hs (qRev.map ExecutedQuery.num_locks).sum).bind (fun l =>
          some (u.1, l.1, u.2, l.2))) := by
  induction qRev with
  | nil =>
    intro t lm w hs
    simp [Transaction.rollbackEntries, Transaction.undoN, Transaction.unlockN]
  | cons e rest ih =>
    intro t lm w hs
    simp only [Transaction.rollbackEntries, List.map_cons, List.sum_cons]
    rw [undoN_add, unlockN_add]
    cases Transaction.undoN t w e.num_muts with
    | none => simp
    | some u =>
      simp only [Option.some_bind]
      cases Transaction.unlockN lm hs e.num_locks with
      | none =>
        simp only [Option.none_bind]
        cases Transaction.undoN u.1 u.2 (rest.map ExecutedQuery.num_muts).sum <;> simp
      | some l =>
        simpa using ih u.1 l.1 u.2 l.2

/-- Membership behind a successful association-list lookup. -/
theorem alookup_mem {α : Type} (l : List (Nat × α)) (k : Nat) (v : α)
    (h : alookup l k = some v) : (k, v) ∈ l := by
  induction l with
  | nil => simp [alookup] at h
  | cons p rest ih =>
    obtain ⟨k2, v2⟩ := p
    simp only [alookup] at h
    by_cases hk : k2 = k
    · rw [if_pos hk] at h
      cases h
      subst hk
      exact List.mem_cons_self _ _
    · rw [if_neg hk] at h
      exact List.mem_cons_of_mem _ (ih h)

/-- `copyBlock` leaves every other block unchanged. -/
theorem Store.read_copyBlock_ne (st : Store) (src dst b s : Nat) (h : dst ≠ b) :
    (st.copyBlock src dst).read b s = st.read b s := by
  simp only [Store.copyBlock, Store.read]
  rw [alookup_ainsert_ne _ _ _ _ (fun hb => h hb.symm)]

/-- `copyBlocks` leaves blocks outside the destination list unchanged. -/
theorem copyBlocks_read (ps : List (Nat × Nat)) : ∀ (st : Store) (b s : Nat),
    (∀ p ∈ ps, p.2 ≠ b) → (copyBlocks st ps).read b s = st.read b s := by
  induction ps with
  | nil => intro st b s _; rfl
  | cons p rest ih =>
    intro st b s hall
    obtain ⟨a, d⟩ := p
    show (copyBlocks (st.copyBlock a d) rest).read b s = st.read b s
    rw [ih _ _ _ (fun q hq => hall q (List.mem_cons_of_mem _ hq))]
    exact Store.read_copyBlock_ne st a d b s (hall (a, d) (List.mem_cons_self _ _))

theorem MergeFrame.refl (D : Nat) (t : Table) (hD : D ≤ t.disk_free) :
    MergeFrame D t t := ⟨rfl, rfl, rfl, rfl, hD, fun _ _ _ => rfl⟩

theorem MergeFrame.trans {D : Nat} {t t2 t3 : Table}
    (h1 : MergeFrame D t t2) (h2 : MergeFrame D t2 t3) : MergeFrame D t t3 := by
  obtain ⟨a1, b1, c1, d1, e1, f1⟩ := h1
  obtain ⟨a2, b2, c2, d2, e2, f2⟩ := h2
  exact ⟨a2.trans a1, b2.trans b1, c2.trans c1, d2.trans d1, e2,
    fun b s hb => (f2 b s hb).trans (f1 b s hb)⟩

theorem mergeNewPage_frame (t : Table) (pid : Nat) (cols : List Nat) (t2 : Table) (D : Nat)
    (h : t.mergeNewPage pid = some (cols, t2))
    (hD : D ≤ t.disk_free)
    (hnw : t.disk_free + (NUM_METADATA_COLUMNS - NUM_STATIC_COLUMNS + t.num_columns)
      < 2 ^ 64) :
    MergeFrame D t t2 ∧
    t2.disk_free = t.disk_free +
      (NUM_METADATA_COLUMNS - NUM_STATIC_COLUMNS + t.num_columns) ∧
    (∀ i b, NUM_STATIC_COLUMNS ≤ i → cols.get? i = some b → D ≤ b) := by
  simp only [Table.mergeNewPage, Option.bind_eq_bind] at h
  cases hbc : t.page_dir.get_page pid with
  | none => rw [hbc] at h; simp at h
  | some base_cols =>
    rw [hbc] at h
    simp only [Option.some_bind] at h
    cases h0 : base_cols.get? METADATA_INDIRECTION with
    | none => rw [h0] at h; simp at h
    | some b0 =>
      rw [h0] at h
      simp only [Option.some_bind] at h
      cases h1 : base_cols.get? METADATA_RID with
      | none => rw [h1] at h; simp at h
      | some b1 =>
        rw [h1] at h
        simp only [Option.some_bind] at h
        cases h2 : base_cols.get? METADATA_BASE_RID with
        | none => rw [h2] at h; simp at h
        | some b2 =>
          rw [h2] at h
          simp only [Option.some_bind] at h
          cases hs : (List.range (NUM_METADATA_COLUMNS - NUM_STATIC_COLUMNS +
              t.num_columns)).mapM
              (fun k => base_cols.get? (NUM_STATIC_COLUMNS + k)) with
          | none => rw [hs] at h; simp at h
          | some srcs =>
            rw [hs] at h
            simp only [Option.some_bind, Option.pure_def, Option.some_inj] at h
            obtain ⟨hcols, ht2⟩ := Prod.mk.injEq .. ▸ h
            subst hcols
            subst ht2
            set n := NUM_METADATA_COLUMNS - NUM_STATIC_COLUMNS + t.num_columns with hn
            have hfresh : ∀ x ∈ (List.range n).map
                (fun k => (t.disk_free + k) % 2 ^ 64), D ≤ x := by
              intro x hx
              simp only [List.mem_map, List.mem_range] at hx
              obtain ⟨k, hk, hxe⟩ := hx
              have : t.disk_free + k < 2 ^ 64 := by omega
              rw [← hxe, Nat.mod_eq_of_lt this]
              omega
            refine ⟨⟨rfl, rfl, rfl, rfl, ?_, ?_⟩, ?_, ?_⟩
            · show D ≤ (t.disk_free + n) % 2 ^ 64
              rw [Nat.mod_eq_of_lt (by omega)]
              omega
            · intro b s hb
              show (copyBlocks t.store _).read b s = t.store.read b s
              apply copyBlocks_read
              intro p hp
              have hp2 := (List.of_mem_zip hp).2
              have := hfresh p.2 hp2
              omega
            · show (t.disk_free + n) % 2 ^ 64 = t.disk_free + n
              exact Nat.mod_eq_of_lt (by omega)
            · intro i b hi hib
              have hi3 : 3 ≤ i := by simpa [NUM_STATIC_COLUMNS] using hi
              rw [List.get?_eq_getElem?,
                List.getElem?_append_right (by simp; omega),
                ← List.get?_eq_getElem?] at hib
              have : b ∈ (List.range n).map (fun k => (t.disk_free + k) % 2 ^ 64) := by
                exact List.get?_mem hib
              exact hfresh b this

theorem writeCell_frame (t : Table) (cols : List Nat) (col s v : Nat) (t2 : Table) (D : Nat)
    (h : t.writeCell cols col s v = some t2)
    (hD : D ≤ t.disk_free)
    (hcol : ∀ b2, cols.get? col = some b2 → D ≤ b2) :
    MergeFrame D t t2 ∧ t2.disk_free = t.disk_free := by
  simp only [Table.writeCell, Option.bind_eq_bind] at h
  cases hb : cols.get? col with
  | none =>
    rw [hb] at h
    simp at h
  | some b2 =>
    rw [hb] at h
    simp only [Option.some_bind, Option.pure_def, Option.some_inj] at h
    subst h
    refine ⟨⟨rfl, rfl, rfl, rfl, hD, ?_⟩, rfl⟩
    intro b s2 hblt
    have hge := hcol b2 hb
    exact Store.read_write_ne _ _ _ _ _ _ (by
      intro hcon
      have : b2 = b := congrArg Prod.fst hcon
      omega)

theorem overlayCols_frame (is : List Nat) :
    ∀ (t : Table) (tail_cols merged_cols : List Nat) (ts bs : Nat) (t2 : Table) (D : Nat),
    t.overlayCols tail_cols merged_cols ts bs is = some t2 →
    D ≤ t.disk_free →
    (∀ i ∈ is, NUM_STATIC_COLUMNS ≤ i) →
    (∀ i b, NUM_STATIC_COLUMNS ≤ i → merged_cols.get? i = some b → D ≤ b) →
    MergeFrame D t t2 ∧ t2.disk_free = t.disk_free := by
  induction is with
  | nil =>
    intro t tc mc ts bs t2 D h hD _ _
    simp only [Table.overlayCols] at h
    cases h
    exact ⟨MergeFrame.refl D t hD, rfl⟩
  | cons i rest ih =>
    intro t tc mc ts bs t2 D h hD his hmc
    simp only [Table.overlayCols, Option.bind_eq_bind] at h
    cases hv : t.readCell tc i ts with
    | none => rw [hv] at h; simp at h
    | some v =>
      rw [hv] at h
      simp only [Option.some_bind] at h
      cases hw : t.writeCell mc i bs v with
      | none => rw [hw] at h; simp at h
      | some t3 =>
        rw [hw] at h
        simp only [Option.some_bind] at h
        have hstep := writeCell_frame t mc i bs v t3 D hw hD
          (fun b2 hb2 => hmc i b2 (his i (List.mem_cons_self _ _)) hb2)
        obtain ⟨hf1, hdf1⟩ := hstep
        have hrest := ih t3 tc mc ts bs t2 D h (by omega)
          (fun j hj => his j (List.mem_cons_of_mem _ hj)) hmc
        exact ⟨hf1.trans hrest.1, hrest.2.trans hdf1⟩

theorem mergeSlot_frame (t : Table) (tail_cols : List Nat) (tail_slot : Nat)
    (seen : List Nat) (merged : List (Nat × List Nat))
    (t2 : Table) (seen2 : List Nat) (merged2 : List (Nat × List Nat)) (D : Nat)
    (h : t.mergeSlot tail_cols tail_slot seen merged = some (t2, seen2, merged2))
    (hD : D ≤ t.disk_free)
    (hnw : t.disk_free + (NUM_METADATA_COLUMNS - NUM_STATIC_COLUMNS + t.num_columns)
      < 2 ^ 64)
    (hgm : GoodMerged D merged) :
    MergeFrame D t t2 ∧
    t2.disk_free ≤ t.disk_free +
      (NUM_METADATA_COLUMNS - NUM_STATIC_COLUMNS + t.num_columns) ∧
    GoodMerged D merged2 := by
  simp only [Table.mergeSlot, Option.bind_eq_bind] at h
  cases hbr : t.readCell tail_cols METADATA_BASE_RID tail_slot with
  | none => rw [hbr] at h; simp at h
  | some base_rid =>
    rw [hbr] at h
    simp only [Option.some_bind] at h
    by_cases hinv : base_rid = RID_INVALID
    · rw [if_pos hinv] at h; simp at h
    rw [if_neg hinv] at h
    by_cases hseen : seen.contains base_rid
    · rw [if_pos hseen] at h
      simp only [Option.pure_def, Option.some_inj] at h
      rw [Prod.mk.injEq, Prod.mk.injEq] at h
      obtain ⟨h1, h2, h3⟩ := h
      subst h1; subst h3
      exact ⟨MergeFrame.refl D t hD, by omega, hgm⟩
    rw [if_neg hseen] at h
    -- the get-or-create step
    have hmid : ∃ cols tmid merged3,
        (match alookup merged (CRID.mk base_rid).page with
          | some cols => pure (cols, t, merged)
          | none => do
            let nc ← t.mergeNewPage (CRID.mk base_rid).page
            pure (nc.1, nc.2, merged ++ [((CRID.mk base_rid).page, nc.1)]) :
          Option (List Nat × Table × List (Nat × List Nat))) =
          some (cols, tmid, merged3) →
        True := ⟨[], t, merged, fun _ => trivial⟩
    clear hmid
    cases halo : alookup merged (CRID.mk base_rid).page with
    | some cols =>
      rw [halo] at h
      simp only [Option.pure_def, Option.some_bind] at h
      have hcols : ∀ i b, NUM_STATIC_COLUMNS ≤ i → cols.get? i = some b → D ≤ b :=
        fun i b hi hib => hgm ((CRID.mk base_rid).page, cols) (alookup_mem _ _ _ halo) i b hi hib
      have hmidframe : MergeFrame D t t := MergeFrame.refl D t hD
      -- continue with the common tail
      cases htid : t.readCell tail_cols METADATA_RID tail_slot with
      | none => rw [htid] at h; simp at h
      | some tid =>
        rw [htid] at h
        simp only [Option.some_bind] at h
        cases htps : t.read_page_tps cols with
        | none => rw [htps] at h; simp at h
        | some tps =>
          rw [htps] at h
          simp only [Option.some_bind] at h
          have hafter : ∀ (tw : Table),
              MergeFrame D t tw → tw.disk_free = t.disk_free →
              (Option.bind (tw.overlayCols tail_cols cols tail_slot
                  (CRID.mk base_rid).slot
                  ((List.range (NUM_METADATA_COLUMNS + tw.num_columns -
                    (NUM_STATIC_COLUMNS + 1))).map
                    (fun k => NUM_STATIC_COLUMNS + 1 + k)))
                (fun t3 => some (t3, seen ++ [base_rid], merged)) =
                some (t2, seen2, merged2)) →
              MergeFrame D t t2 ∧
              t2.disk_free ≤ t.disk_free +
                (NUM_METADATA_COLUMNS - NUM_STATIC_COLUMNS + t.num_columns) ∧
              GoodMerged D merged2 := by
            intro tw hfw hdfw hh
            cases hov : tw.overlayCols tail_cols cols tail_slot
                (CRID.mk base_rid).slot
                ((List.range (NUM_METADATA_COLUMNS + tw.num_columns -
                  (NUM_STATIC_COLUMNS + 1))).map
                  (fun k => NUM_STATIC_COLUMNS + 1 + k)) with
            | none => rw [hov] at hh; simp at hh
            | some t3 =>
              rw [hov] at hh
              simp only [Option.some_bind, Option.some_inj] at hh
              rw [Prod.mk.injEq, Prod.mk.injEq] at hh
              obtain ⟨hh1, hh2, hh3⟩ := hh
              subst hh1; subst hh3
              have hovf := overlayCols_frame _ tw tail_cols cols tail_slot
                (CRID.mk base_rid).slot t3 D hov (by omega)
                (by
                  intro i hi
                  simp only [List.mem_map, List.mem_range] at hi
                  obtain ⟨k, _, hk⟩ := hi
                  omega)
                hcols
              refine ⟨hfw.trans hovf.1, ?_, hgm⟩
              rw [hovf.2, hdfw]
              omega
          by_cases hcond : tps > tid ∧ tid ≠ 0
          · rw [if_pos hcond] at h
            cases hw : t.write_page_tps cols tid with
            | none => rw [hw] at h; simp at h
            | some tw =>
              rw [hw] at h
              simp only [Option.some_bind] at h
              have hwf := writeCell_frame t cols METADATA_PAGE_HEADER 0 tid tw D hw hD
                (fun b2 hb2 => hcols METADATA_PAGE_HEADER b2 (by decide) hb2)
              exact hafter tw hwf.1 hwf.2 h
          · rw [if_neg hcond] at h
            try simp only [Option.pure_def, Option.some_bind] at h
            exact hafter t hmidframe rfl h
    | none =>
      rw [halo] at h
      simp only [Option.bind_eq_bind, Option.some_bind] at h
      cases hnp : t.mergeNewPage (CRID.mk base_rid).page with
      | none => rw [hnp] at h; simp at h
      | some nc =>
        rw [hnp] at h
        simp only [Option.some_bind, Option.pure_def] at h
        obtain ⟨cols, tmid⟩ := nc
        have hnpf := mergeNewPage_frame t (CRID.mk base_rid).page cols tmid D hnp hD hnw
        obtain ⟨hfmid, hdfmid, hcolsg⟩ := hnpf
        have hgm2 : GoodMerged D (merged ++ [((CRID.mk base_rid).page, cols)]) := by
          intro pc hpc i b hi hib
          rcases List.mem_append.mp hpc with hold | hnew
          · exact hgm pc hold i b hi hib
          · simp only [List.mem_singleton] at hnew
            subst hnew
            exact hcolsg i b hi hib
        -- common tail, now from tmid with merged3
        cases htid : tmid.readCell tail_cols METADATA_RID tail_slot with
        | none => rw [htid] at h; simp at h
        | some tid =>
          rw [htid] at h
          simp only [Option.some_bind] at h
          cases htps : tmid.read_page_tps cols with
          | none => rw [htps] at h; simp at h
          | some tps =>
            rw [htps] at h
            simp only [Option.some_bind] at h
            have hDmid : D ≤ tmid.disk_free := hfmid.2.2.2.2.1
            have hafter : ∀ (tw : Table),
                MergeFrame D t tw → tw.disk_free = tmid.disk_free →
                (Option.bind (tw.overlayCols tail_cols cols tail_slot
                    (CRID.mk base_rid).slot
                    ((List.range (NUM_METADATA_COLUMNS + tw.num_columns -
                      (NUM_STATIC_COLUMNS + 1))).map
                      (fun k => NUM_STATIC_COLUMNS + 1 + k)))
                  (fun t3 => some (t3, seen ++ [base_rid],
                    merged ++ [((CRID.mk base_rid).page, cols)])) =
                  some (t2, seen2, merged2)) →
                MergeFrame D t t2 ∧
                t2.disk_free ≤ t.disk_free +
                  (NUM_METADATA_COLUMNS - NUM_STATIC_COLUMNS + t.num_columns) ∧
                GoodMerged D merged2 := by
              intro tw hfw hdfw hh
              cases hov : tw.overlayCols tail_cols cols tail_slot
                  (CRID.mk base_rid).slot
                  ((List.range (NUM_METADATA_COLUMNS + tw.num_columns -
                    (NUM_STATIC_COLUMNS + 1))).map
                    (fun k => NUM_STATIC_COLUMNS + 1 + k)) with
              | none => rw [hov] at hh; simp at hh
              | some t3 =>
                rw [hov] at hh
                simp only [Option.some_bind, Option.some_inj] at hh
                rw [Prod.mk.injEq, Prod.mk.injEq] at hh
                obtain ⟨hh1, hh2, hh3⟩ := hh
                subst hh1; subst hh3
                have hovf := overlayCols_frame _ tw tail_cols cols tail_slot
                  (CRID.mk base_rid).slot t3 D hov (hfw.2.2.2.2.1)
                  (by
                    intro i hi
                    simp only [List.mem_map, List.mem_range] at hi
                    obtain ⟨k, _, hk⟩ := hi
                    omega)
                  hcolsg
                refine ⟨hfw.trans hovf.1, ?_, hgm2⟩
                rw [hovf.2, hdfw]
                omega
            by_cases hcond : tps > tid ∧ tid ≠ 0
            · rw [if_pos hcond] at h
              cases hw : tmid.write_page_tps cols tid with
              | none => rw [hw] at h; simp at h
              | some tw =>
                rw [hw] at h
                simp only [Option.some_bind] at h
                have hwf := writeCell_frame tmid cols METADATA_PAGE_HEADER 0 tid tw D hw
                  hDmid (fun b2 hb2 => hcolsg METADATA_PAGE_HEADER b2 (by decide) hb2)
                exact hafter tw (hfmid.trans hwf.1) hwf.2 h
            · rw [if_neg hcond] at h
              try simp only [Option.pure_def, Option.some_bind] at h
              exact hafter tmid hfmid rfl h

theorem mergeSlots_frame (slots : List Nat) :
    ∀ (tail_cols : List Nat) (t : Table) (seen : List Nat)
      (merged : List (Nat × List Nat)) (t2 : Table) (seen2 : List Nat)
      (merged2 : List (Nat × List Nat)) (D : Nat),
    Table.mergeSlots tail_cols slots t seen merged = some (t2, seen2, merged2) →
    D ≤ t.disk_free →
    t.disk_free + slots.length *
      (NUM_METADATA_COLUMNS - NUM_STATIC_COLUMNS + t.num_columns) < 2 ^ 64 →
    GoodMerged D merged →
    MergeFrame D t t2 ∧
    t2.disk_free ≤ t.disk_free + slots.length *
      (NUM_METADATA_COLUMNS - NUM_STATIC_COLUMNS + t.num_columns) ∧
    GoodMerged D merged2 := by
  induction slots with
  | nil =>
    intro tail_cols t seen merged t2 seen2 merged2 D h hD _ hgm
    simp only [Table.mergeSlots, Option.some_inj] at h
    rw [Prod.mk.injEq, Prod.mk.injEq] at h
    obtain ⟨h1, h2, h3⟩ := h
    subst h1; subst h3
    exact ⟨MergeFrame.refl D t hD, by omega, hgm⟩
  | cons s rest ih =>
    intro tail_cols t seen merged t2 seen2 merged2 D h hD hnw hgm
    simp only [Table.mergeSlots, Option.bind_eq_bind] at h
    have hexp : (s :: rest).length *
        (NUM_METADATA_COLUMNS - NUM_STATIC_COLUMNS + t.num_columns) =
        rest.length * (NUM_METADATA_COLUMNS - NUM_STATIC_COLUMNS + t.num_columns) +
        (NUM_METADATA_COLUMNS - NUM_STATIC_COLUMNS + t.num_columns) := by
      simp only [List.length_cons]
      ring
    rw [hexp] at hnw
    cases hstep : t.mergeSlot tail_cols s seen merged with
    | none => rw [hstep] at h; simp at h
    | some r =>
      rw [hstep] at h
      simp only [Option.some_bind] at h
      obtain ⟨t3, seen3, merged3⟩ := r
      have hsf := mergeSlot_frame t tail_cols s seen merged t3 seen3 merged3 D hstep hD
        (by omega) hgm
      obtain ⟨hf1, hdf1, hgm3⟩ := hsf
      have hnum : t3.num_columns = t.num_columns := hf1.2.2.1
      have hrest := ih tail_cols t3 seen3 merged3 t2 seen2 merged2 D h
        hf1.2.2.2.2.1
        (by rw [hnum]; omega)
        hgm3
      refine ⟨hf1.trans hrest.1, ?_, hrest.2.2⟩
      have := hrest.2.1
      rw [hnum] at this
      rw [hexp]
      omega

theorem mergeWalk_frame (fuel : Nat) :
    ∀ (tail_page_id stop : Nat) (t : Table) (seen : List Nat)
      (merged : List (Nat × List Nat)) (t2 : Table) (seen2 : List Nat)
      (merged2 : List (Nat × List Nat)) (D : Nat),
    Table.mergeWalk fuel tail_page_id stop t seen merged = some (t2, seen2, merged2) →
    D ≤ t.disk_free →
    t.disk_free + fuel * PAGE_SLOTS *
      (NUM_METADATA_COLUMNS - NUM_STATIC_COLUMNS + t.num_columns) < 2 ^ 64 →
    GoodMerged D merged →
    MergeFrame D t t2 := by
  induction fuel with
  | zero =>
    intro tp stop t seen merged t2 seen2 merged2 D h _ _ _
    simp [Table.mergeWalk] at h
  | succ fuel ih =>
    intro tp stop t seen merged t2 seen2 merged2 D h hD hnw hgm
    simp only [Table.mergeWalk] at h
    by_cases hcond : tp > stop ∧ tp ≠ RID_INVALID
    · rw [if_pos hcond] at h
      simp only [Option.bind_eq_bind] at h
      cases htc : t.page_dir.get_page tp with
      | none => rw [htc] at h; simp at h
      | some tail_cols =>
        rw [htc] at h
        simp only [Option.some_bind] at h
        cases hsl : Table.mergeSlots tail_cols (List.range PAGE_SLOTS).reverse
            t seen merged with
        | none => rw [hsl] at h; simp at h
        | some r =>
          rw [hsl] at h
          simp only [Option.some_bind] at h
          obtain ⟨t3, seen3, merged3⟩ := r
          have hlen : ((List.range PAGE_SLOTS).reverse).length = PAGE_SLOTS := by
            simp
          have hexp : (fuel + 1) * PAGE_SLOTS *
              (NUM_METADATA_COLUMNS - NUM_STATIC_COLUMNS + t.num_columns) =
              fuel * PAGE_SLOTS *
                (NUM_METADATA_COLUMNS - NUM_STATIC_COLUMNS + t.num_columns) +
              PAGE_SLOTS *
                (NUM_METADATA_COLUMNS - NUM_STATIC_COLUMNS + t.num_columns) := by
            ring
          rw [hexp] at hnw
          have hsf := mergeSlots_frame _ tail_cols t seen merged t3 seen3 merged3 D hsl
            hD (by rw [hlen]; omega) hgm
          obtain ⟨hf1, hdf1, hgm3⟩ := hsf
          rw [hlen] at hdf1
          cases hnx : t3.read_last_tail tail_cols with
          | none => rw [hnx] at h; simp at h
          | some next =>
            rw [hnx] at h
            simp only [Option.some_bind] at h
            have hnum : t3.num_columns = t.num_columns := hf1.2.2.1
            have hrest := ih next stop t3 seen3 merged3 t2 seen2 merged2 D h
              hf1.2.2.2.2.1
              (by rw [hnum]; omega)
              hgm3
            exact hf1.trans hrest
    · rw [if_neg hcond] at h
      simp only [Option.some_inj] at h
      rw [Prod.mk.injEq, Prod.mk.injEq] at h
      obtain ⟨h1, h2, h3⟩ := h
      subst h1
      exact MergeFrame.refl D t hD

theorem merge_pass_frame (t : Table) (mr fuel : Nat) (t2 : Table) (D : Nat)
    (h : t.merge_pass mr fuel = some t2)
    (hD : D ≤ t.disk_free)
    (hnw : t.disk_free + fuel * PAGE_SLOTS *
      (NUM_METADATA_COLUMNS - NUM_STATIC_COLUMNS + t.num_columns) < 2 ^ 64) :
    ∀ b s, b < D → t2.store.read b s = t.store.read b s := by
  simp only [Table.merge_pass, Option.bind_eq_bind] at h
  cases hr : t.range_dir.get? mr with
  | none => rw [hr] at h; simp at h
  | some range =>
    rw [hr] at h
    simp only [Option.some_bind] at h
    cases hcc : t.page_dir.get_page range.current_tail_page with
    | none => rw [hcc] at h; simp at h
    | some cur_cols =>
      rw [hcc] at h
      simp only [Option.some_bind] at h
      cases hlp : t.read_last_tail cur_cols with
      | none => rw [hlp] at h; simp at h
      | some last_page =>
        rw [hlp] at h
        simp only [Option.some_bind] at h
        cases hw : Table.mergeWalk fuel last_page range.merged_until { t with range_dir := t.range_dir.set mr { range with merged_until := last_page } } [] [] with
        | none => rw [hw] at h; simp at h
        | some r =>
          rw [hw] at h
          simp only [Option.some_bind, Option.pure_def, Option.some_inj] at h
          obtain ⟨t3, seen3, merged3⟩ := r
          have hwf := mergeWalk_frame fuel last_page range.merged_until
            _ [] [] t3 seen3 merged3 D hw hD hnw
            (by intro pc hpc; simp at hpc)
          intro b s hb
          have := hwf.2.2.2.2.2 b s hb
          rw [← h]
          exact this

theorem readCell_congr (t t2 : Table) (cols : List Nat) (col s : Nat)
    (h : ∀ b ∈ cols, ∀ s2, t2.store.read b s2 = t.store.read b s2) :
    t2.readCell cols col s = t.readCell cols col s := by
  simp only [Table.readCell, Option.bind_eq_bind]
  cases hb : cols.get? col with
  | none => rfl
  | some b =>
    simp only [Option.some_bind, Option.pure_def, Option.some_inj]
    exact h b (List.get?_mem hb) s

theorem mapM_readCell_congr (ic : List Nat) (t t2 : Table) (cols : List Nat) (s : Nat)
    (h : ∀ b ∈ cols, ∀ s2, t2.store.read b s2 = t.store.read b s2) :
    ic.mapM (fun i => t2.readCell cols (NUM_METADATA_COLUMNS + i) s) =
      ic.mapM (fun i => t.readCell cols (NUM_METADATA_COLUMNS + i) s) := by
  induction ic with
  | nil => rfl
  | cons i rest ih =>
    simp only [List.mapM_cons]
    rw [readCell_congr t t2 cols (NUM_METADATA_COLUMNS + i) s h, ih]

theorem get_latest_congr (t t2 : Table) (r : CRID) (cols : List Nat)
    (hc : t.page_dir.get r = some cols) (hc2 : t2.page_dir.get r = some cols)
    (h : ∀ b ∈ cols, ∀ s2, t2.store.read b s2 = t.store.read b s2) :
    t2.get_latest r = t.get_latest r := by
  simp only [Table.get_latest, hc, hc2, Option.some_bind, Option.bind_eq_bind]
  rw [readCell_congr t t2 cols METADATA_INDIRECTION r.slot h]
  cases hi : t.readCell cols METADATA_INDIRECTION r.slot with
  | none => rfl
  | some indir =>
    simp only [Option.some_bind]
    by_cases hinv : indir = RID_INVALID
    · rw [if_pos hinv, if_pos hinv]
    · rw [if_neg hinv, if_neg hinv]
      show Option.bind (t2.read_page_tps cols) _ = Option.bind (t.read_page_tps cols) _
      rw [show t2.read_page_tps cols = t.read_page_tps cols from
        readCell_congr t t2 cols METADATA_PAGE_HEADER 0 h]

/-!
The claim theorems.
-/

/-- C1, counterexample.  The claim asserts `page()` returns all bits of the
id from bit 9 up, `page_range() = page() / 16`, and that a tail RID is
decoded through the one's complement of its raw id.  All three fail on the
code in rid.rs: `BaseRID::page` masks the shift to four bits, so at
id `2 ^ 13` it returns 0 rather than 16; `BaseRID::page_range` is the id
shifted by 13 (here 1, not `page / 16 = 0`); and `TailRID::slot` at raw id
`2 ^ 63` is 0 while the complement decomposition would give
`(~(2 ^ 63)) & 0x1FF = 511`. -/
theorem C1_rid_decoding_counterexample :
    ¬ (BaseRID.page 8192 = 8192 / 2 ^ 9 ∧
       BaseRID.page_range 8192 = BaseRID.page 8192 / 16 ∧
       TailRID.slot (2 ^ 63) = (2 ^ 64 - 1 - 2 ^ 63) % 2 ^ 9) := by
  decide

/-- C1 (amended): `BaseRID::slot` is bits [0..9) of the id, `BaseRID::page`
is bits [9..13) (the shift by 9 is masked to four bits), and
`BaseRID::page_range` is the id arithmetically shifted right by 13 (not
`page() / 16`).  A tail RID does not use the one's complement: it carries a
31-bit sequence id in bits [32..63); `TailRID::new_tail pr idv` encodes
`pr | idv << 32 | 1 << 63`, and the accessors decode it back as
`slot = idv % 512`, `page = idv / 512`, `page_range = pr`. -/
theorem C1_rid_decoding_amended (r pr idv : Nat)
    (hpr : pr < 2 ^ 32) (hid : idv < 2 ^ 31) :
    BaseRID.slot r = r % 2 ^ 9 ∧
    BaseRID.page r = r / 2 ^ 9 % 2 ^ 4 ∧
    (r < 2 ^ 63 → BaseRID.page_range r = r / 2 ^ 13) ∧
    TailRID.slot (TailRID.new_tail pr idv) = idv % 512 ∧
    TailRID.page (TailRID.new_tail pr idv) = idv / 512 ∧
    TailRID.page_range (TailRID.new_tail pr idv) = pr := by
  have h1 : pr ||| (idv <<< 32) = idv * 2 ^ 32 + pr :=
    lor_shiftLeft_eq_add pr idv 32 hpr
  have hlt : idv * 2 ^ 32 + pr < 2 ^ 63 := by
    have : idv * 2 ^ 32 ≤ (2 ^ 31 - 1) * 2 ^ 32 :=
      Nat.mul_le_mul_right _ (by omega)
    omega
  have h2 : (idv * 2 ^ 32 + pr) ||| (1 <<< 63) = 1 * 2 ^ 63 + (idv * 2 ^ 32 + pr) :=
    lor_shiftLeft_eq_add _ 1 63 hlt
  have hv : TailRID.new_tail pr idv = 2 ^ 63 + (idv * 2 ^ 32 + pr) := by
    unfold TailRID.new_tail
    rw [h1, h2]
    omega
  refine ⟨rfl, rfl, ?_, ?_, ?_, ?_⟩
  · intro h
    simp only [BaseRID.page_range]
    rw [if_pos h]
  · show TailRID.new_tail pr idv / 2 ^ 32 % 2 ^ 31 % PAGE_SLOTS = idv % 512
    rw [hv]
    show (9223372036854775808 + (idv * 4294967296 + pr)) / 4294967296 % 2147483648 % 512 = idv % 512
    omega
  · show TailRID.new_tail pr idv / 2 ^ 32 % 2 ^ 31 / PAGE_SLOTS = idv / 512
    rw [hv]
    show (9223372036854775808 + (idv * 4294967296 + pr)) / 4294967296 % 2147483648 / 512 = idv / 512
    omega
  · show TailRID.new_tail pr idv % 2 ^ 32 = pr
    rw [hv]
    omega

/-- C1 (amended), witness at `r = 8192`, `pr = 5`, `idv = 7`. -/
theorem C1_rid_decoding_amended_witness :
    (5 : Nat) < 2 ^ 32 ∧ (7 : Nat) < 2 ^ 31 ∧
    (BaseRID.slot 8192 = 8192 % 2 ^ 9 ∧
     BaseRID.page 8192 = 8192 / 2 ^ 9 % 2 ^ 4 ∧
     ((8192 : Nat) < 2 ^ 63 → BaseRID.page_range 8192 = 8192 / 2 ^ 13) ∧
     TailRID.slot (TailRID.new_tail 5 7) = 7 % 512 ∧
     TailRID.page (TailRID.new_tail 5 7) = 7 / 512 ∧
     TailRID.page_range (TailRID.new_tail 5 7) = 5) :=
  ⟨by decide, by decide, C1_rid_decoding_amended 8192 5 7 (by decide) (by decide)⟩

/-- C2: what a successful update writes.  On `updTable`, the allocated
tail slot receives BASE_RID = 2563 (the base RID), INDIRECTION = 2563
(the base RID, as there was no earlier tail), RID = the new tail RID,
and the merged user columns [77, 55]; but the tail slot's SCHEMA_ENCODING
stays 0 — the bitmask 2 is written at the *base* record's slot (3) of the
tail page instead, so the claim's SCHEMA_ENCODING clause fails.  The
final write of the update (the journal head) is the base slot's
INDIRECTION taking the new tail RID, as claimed. -/
theorem C2_update_writes :
    updReadback = some (true, 2563, 2563, 2 ^ 64 - 2, 77, 55, 0, 2, 2 ^ 64 - 2) ∧
    updResult.map (fun p => p.2.store.journal.head?) = some (some (100, 3, 2 ^ 64 - 2)) :=
  ⟨rfl, rfl⟩

/-- C3: after two successive updates of indexed column 1 (10 to 55, then
55 to 66) the column-1 index still maps the superseded value 55 to the
base RID — the old-value removal is guarded by
`(old_schema_encoding & (1 << i)) == 1`, which is false for bit 1 — so
the claim's removal clause fails (the new value 66 is mapped, as
claimed). -/
theorem C3_index_stale :
    c3Result.map Prod.fst = some true ∧
    c3Result.bind (fun p => p.2.index.get_from_index 1 55) = some (some [2563]) ∧
    c3Result.bind (fun p => p.2.index.get_from_index 1 66) = some (some [2563]) :=
  ⟨rfl, rfl, rfl⟩

/-- C4: `delete_query(20)` returns true and tombstones the base slot's
RID column and the tail record's RID column (both INVALID), and a
subsequent update and delete of key 20 return false, as claimed; but a
subsequent select of key 20 on the primary-key column still returns one
record — `find_rows` reads the RID column at slot `x.page()` instead of
`x.slot()`, so the tombstone check misses — refuting the claim's
empty-select clause. -/
theorem C4_delete_leak :
    c4Result.map Prod.fst = some true ∧
    c4Result.map (fun p => (p.2.store.read 11 1, p.2.store.read 21 0)) =
      some (RID_INVALID, RID_INVALID) ∧
    c4Result.bind (fun p => (p.2.update_query 20 [none, some 1] 10).map Prod.fst) =
      some false ∧
    c4Result.bind (fun p => (p.2.delete_query 20 10).map Prod.fst) = some false ∧
    c4Result.bind (fun p => p.2.select_query 20 0 [0, 1] 10) =
      some [{ rid := RID_INVALID, indirection := 1, schema_encoding := 2,
              columns := [20, 99] }] :=
  ⟨rfl, rfl, rfl, rfl, rfl⟩

/-- C5: on `c5Table` the record with key 11 is tombstoned (RID column
INVALID), yet `sum_query(10, 11, 1)` returns 7 + 9 = 16 —
`find_rows_range` never checks the RID column for tombstones — so the
claim's live-records-only clause fails. -/
theorem C5_sum_dead :
    c5Table.store.read 11 1 = RID_INVALID ∧
    (CRID.mk 1).slot = 1 ∧
    c5Table.store.read 15 1 = 11 ∧
    c5Table.sum_query 10 11 1 10 = some 16 :=
  ⟨rfl, rfl, rfl, rfl⟩

/-- C6: `get_latest` returns the RID itself when the base slot's
INDIRECTION is INVALID, or when the page's TPS (PAGE_HEADER slot 0) is at
most the indirection; otherwise it returns the RID stored in
INDIRECTION.  Confirmed as claimed. -/
theorem C6_get_latest (t : Table) (rid : CRID) (cols : List Nat) (indir tps : Nat)
    (hcols : t.page_dir.get rid = some cols)
    (hindir : t.readCell cols METADATA_INDIRECTION rid.slot = some indir)
    (htps : t.read_page_tps cols = some tps) :
    (indir = RID_INVALID → t.get_latest rid = some rid) ∧
    (indir ≠ RID_INVALID → tps ≤ indir → t.get_latest rid = some rid) ∧
    (indir ≠ RID_INVALID → indir < tps → t.get_latest rid = some (CRID.mk indir)) := by
  refine ⟨?_, ?_, ?_⟩
  · intro h
    simp [Table.get_latest, hcols, hindir, h]
  · intro h h2
    simp [Table.get_latest, hcols, hindir, htps, h, h2]
  · intro h h2
    simp [Table.get_latest, hcols, hindir, htps, h, Nat.not_le.mpr h2]

/-- C6, witness: on `updTable` the base record 2563 has INDIRECTION
INVALID, so `get_latest` returns it unchanged. -/
theorem C6_get_latest_witness :
    updTable.get_latest (CRID.mk 2563) = some (CRID.mk 2563) :=
  (C6_get_latest updTable (CRID.mk 2563) [100, 101, 102, 103, 104, 105, 106]
    RID_INVALID RID_INVALID rfl rfl rfl).1 rfl

/-- C7: when the primary-key value of the inserted row is already live in
the table, `TablePy::insert` leaves the table exactly as it was: the same
store, the same index, and identical select and sum results.  Confirmed
as claimed. -/
theorem C7_insert_dup (t : Table) (values : List Nat) (pkv : Nat) (r : CRID) (fuel : Nat)
    (hpk : values.get? t.primary_key_index = some pkv)
    (hrow : t.find_row t.primary_key_index pkv fuel = some (some r)) :
    t.insert_py values fuel = some t ∧
    ∀ t2, t.insert_py values fuel = some t2 →
      t2.store = t.store ∧ t2.index = t.index ∧
      (∀ sv ci ic f2, t2.select_query sv ci ic f2 = t.select_query sv ci ic f2) ∧
      (∀ lo hi c f2, t2.sum_query lo hi c f2 = t.sum_query lo hi c f2) := by
  have hpk2 : values[t.primary_key_index]? = some pkv := by
    simpa [List.get?_eq_getElem?] using hpk
  have hmain : t.insert_py values fuel = some t := by
    simp [Table.insert_py, hpk2, hrow]
  refine ⟨hmain, ?_⟩
  intro t2 h2
  rw [hmain] at h2
  cases h2
  exact ⟨rfl, rfl, fun _ _ _ _ => rfl, fun _ _ _ _ => rfl⟩

/-- C7, witness: inserting [77, 123] into `updTable`, whose key 77 is
live, returns the table unchanged. -/
theorem C7_insert_dup_witness :
    updTable.insert_py [77, 123] 10 = some updTable :=
  (C7_insert_dup updTable [77, 123] 77 (CRID.mk 2563) 10 rfl rfl).1

/-- C8, counterexample.  On `c8Table`, base RID 2560 selects as the tail
version (rid = the tail RID, indirection = 2560) before the merge; after
`merge_pass` the consolidated page's TPS equals the tail RID, so
`get_latest` now routes the read to the base slot and the same select
returns rid = 2560, indirection = the tail RID: the merge is visible in
the returned record's metadata fields. -/
theorem C8_merge_select_counterexample :
    c8Table.select_query 10 0 [0, 1] 10 =
      some [{ rid := 2 ^ 64 - 1025, indirection := 2560, schema_encoding := 3,
              columns := [55, 77] }] ∧
    (c8Table.merge_pass 0 10).bind (fun t2 => t2.select_query 10 0 [0, 1] 10) =
      some [{ rid := 2560, indirection := 2 ^ 64 - 1025, schema_encoding := 3,
              columns := [55, 77] }] ∧
    ({ rid := 2560, indirection := 2 ^ 64 - 1025, schema_encoding := 3,
       columns := [55, 77] } : RecordRust) ≠
      { rid := 2 ^ 64 - 1025, indirection := 2560, schema_encoding := 3,
        columns := [55, 77] } :=
  ⟨rfl, rfl, by decide⟩

/-- C8 (amended): the merge is confined to the consolidated pages.  For
any completed `merge_pass` whose block counter is in no danger of
wrapping, a base RID whose page-directory entries — its own page's and
its latest version's — survive the swap unchanged, and whose column
blocks all predate the merge's block reservations, resolves
(`get_latest`) and selects (`selectOne`) exactly as before the merge:
every store write of the pass targets a freshly reserved block, and only
the rebuilt pages' directory entries change.  Together with the
counterexample this corrects the claim: a select of a consolidated
page's record can change, any other cannot. -/
theorem C8_merge_frame (t : Table) (mr fuel : Nat) (t2 : Table)
    (hm : t.merge_pass mr fuel = some t2)
    (hnw : t.disk_free + fuel * PAGE_SLOTS *
      (NUM_METADATA_COLUMNS - NUM_STATIC_COLUMNS + t.num_columns) < 2 ^ 64)
    (r rid2 : CRID) (cols cols2 ic : List Nat)
    (hc : t.page_dir.get r = some cols)
    (hc2 : t2.page_dir.get r = some cols)
    (hblk : ∀ b ∈ cols, b < t.disk_free)
    (hl : t.get_latest r = some rid2)
    (hc3 : t.page_dir.get rid2 = some cols2)
    (hc4 : t2.page_dir.get rid2 = some cols2)
    (hblk2 : ∀ b ∈ cols2, b < t.disk_free) :
    t2.get_latest r = t.get_latest r ∧
    t2.selectOne ic r = t.selectOne ic r := by
  have hread := merge_pass_frame t mr fuel t2 t.disk_free hm (le_refl _) hnw
  have hr1 : ∀ b ∈ cols, ∀ s2, t2.store.read b s2 = t.store.read b s2 :=
    fun b hb s2 => hread b s2 (hblk b hb)
  have hr2 : ∀ b ∈ cols2, ∀ s2, t2.store.read b s2 = t.store.read b s2 :=
    fun b hb s2 => hread b s2 (hblk2 b hb)
  have hgl := get_latest_congr t t2 r cols hc hc2 hr1
  refine ⟨hgl, ?_⟩
  simp only [Table.selectOne, Option.bind_eq_bind]
  rw [hgl, hl]
  simp only [Option.some_bind, hc3, hc4]
  rw [mapM_readCell_congr ic t t2 cols2 rid2.slot hr2]
  cases hres : ic.mapM (fun i => t.readCell cols2 (NUM_METADATA_COLUMNS + i) rid2.slot) with
  | none => rfl
  | some res =>
    simp only [Option.some_bind]
    rw [readCell_congr t t2 cols2 METADATA_RID rid2.slot hr2]
    cases t.readCell cols2 METADATA_RID rid2.slot with
    | none => rfl
    | some orid =>
      simp only [Option.some_bind]
      rw [readCell_congr t t2 cols2 METADATA_INDIRECTION rid2.slot hr2]
      cases t.readCell cols2 METADATA_INDIRECTION rid2.slot with
      | none => rfl
      | some ind =>
        simp only [Option.some_bind]
        rw [readCell_congr t t2 cols2 METADATA_SCHEMA_ENCODING rid2.slot hr2]

/-- C8 (amended), witness: on `c8wTable` — the merge scenario plus a
third record on page 6 that no tail slot refers to — record 3072
resolves and selects identically across the merge pass. -/
theorem C8_merge_frame_witness :
    c8wMerged.get_latest (CRID.mk 3072) = c8wTable.get_latest (CRID.mk 3072) ∧
    c8wMerged.selectOne [0, 1] (CRID.mk 3072) =
      c8wTable.selectOne [0, 1] (CRID.mk 3072) :=
  C8_merge_frame c8wTable 0 10 c8wMerged rfl (by decide)
    (CRID.mk 3072) (CRID.mk 3072)
    [150, 151, 152, 153, 154, 155, 156] [150, 151, 152, 153, 154, 155, 156] [0, 1]
    rfl rfl (by decide) rfl rfl rfl (by decide)

/-- C9, counterexample.  The aborted run `c9Run` (its second update hits
a latch `c9Locks` already holds) returns false, restores the first
update's base INDIRECTION to INVALID and the latch table to its prior
states, but does *not* restore the full table: the tail page's BASE_RID
cell written by the first update survives (block 202 slot 0 reads 2560,
it read 0 before the run), and the key index keeps an emptied bucket for
the rolled-back value 55, so the index differs from the initial one. -/
theorem C9_rollback_counterexample :
    c9Run.map (fun r => r.1) = some false ∧
    c9Table.store.read 202 0 = 0 ∧
    c9Run.map (fun r => r.2.1.store.read 202 0) = some 2560 ∧
    c9Run.map (fun r => r.2.1.index.indices) =
      some [some [(10, [2560]), (20, [2563])],
            some [(5, [2560]), (7, [2563]), (55, [])]] ∧
    [some [(10, [2560]), (20, [2563])],
     some [(5, [2560]), (7, [2563]), (55, [])]] ≠ c9Table.index.indices ∧
    c9Run.map (fun r =>
        (r.2.1.store.read 100 0, r.2.2.1.stateOf 2560, r.2.2.1.stateOf 2563)) =
      some (RID_INVALID, c9Locks.stateOf 2560, c9Locks.stateOf 2563) :=
  ⟨rfl, rfl, rfl, rfl, by decide, rfl⟩

/-- C9 (amended): what an abort actually restores.  For a transaction
whose bookkeeping counts match its logs, whose logged mutations resolve
(`undoable`) and whose acquired latches are exclusive with materialized
entries, `rollback` succeeds, empties the logs, and (a) rewrites every
logged storage cell to the *earliest* original value logged against it,
leaving unlogged cells untouched, and (b) releases every acquired latch
(the latch state keeps its reader count and drops the writer flag);
allocation effects and index-bucket residue are not undone. -/
theorem C9_rollback_amended (t : Table) (lm : LockManager) (txn : Transaction)
    (hmuts : (txn.query_log.map ExecutedQuery.num_muts).sum = txn.write_log.length)
    (hlocks : (txn.query_log.map ExecutedQuery.num_locks).sum =
      txn.locks_acquired.length)
    (hundo : ∀ m ∈ txn.write_log, undoable t m)
    (hheld : ∀ h ∈ txn.locks_acquired,
      (alookup lm.locks h.rid).isSome ∧ h.lock_type = LockType.exclusive) :
    ∃ t2 lm2 txn2,
      Transaction.rollback t lm txn = some (t2, lm2, txn2) ∧
      txn2.write_log = [] ∧ txn2.locks_acquired = [] ∧ txn2.query_log = [] ∧
      t2.page_dir = t.page_dir ∧
      (∀ b s, t2.store.read b s =
        (logOriginal t txn.write_log (b, s)).getD (t.store.read b s)) ∧
      (∀ rid, lm2.stateOf rid =
        if rid ∈ txn.locks_acquired.map LockHandle.rid
        then { lm.stateOf rid with exclusive := false }
        else lm.stateOf rid) := by
  obtain ⟨tf, hu, hpd, _, hread⟩ := undoN_full txn.write_log t hundo
  obtain ⟨lmf, hl, hstate⟩ := unlockN_full txn.locks_acquired lm hheld
  have hsum1 : (txn.query_log.reverse.map ExecutedQuery.num_muts).sum =
      txn.write_log.length := by
    rw [List.map_reverse, List.sum_reverse]
    exact hmuts
  have hsum2 : (txn.query_log.reverse.map ExecutedQuery.num_locks).sum =
      txn.locks_acquired.length := by
    rw [List.map_reverse, List.sum_reverse]
    exact hlocks
  refine ⟨tf, lmf,
    { txn with query_log := [], write_log := [], locks_acquired := [] },
    ?_, rfl, rfl, rfl, hpd, hread, hstate⟩
  rw [show txn.write_log.length = (txn.query_log.reverse.map
    ExecutedQuery.num_muts).sum from hsum1.symm] at hu
  rw [show txn.locks_acquired.length = (txn.query_log.reverse.map
    ExecutedQuery.num_locks).sum from hsum2.symm] at hl
  simp only [Transaction.rollback, rollbackEntries_split, hu, hl,
    Option.some_bind]
  rfl

/-- C9 (amended), witness: the rollback of `c9wTxn` (one logged record
mutation, one exclusive latch) against `c9Table` and `c9Locks`
succeeds. -/
theorem C9_rollback_amended_witness :
    (Transaction.rollback c9Table c9Locks c9wTxn).isSome := by
  obtain ⟨t2, lm2, txn2, hroll, _⟩ :=
    C9_rollback_amended c9Table c9Locks c9wTxn rfl rfl
      (by intro m hm; simp only [c9wTxn, List.mem_singleton] at hm; subst hm
          exact rfl)
      (by intro h hh; simp only [c9wTxn, List.mem_singleton] at hh; subst hh
          exact ⟨rfl, rfl⟩)
  rw [hroll]
  rfl

/-- C10: `BufferPool::get_page` called with the sentinel `!0` takes the
`"Tried to load invalid page"` panic and never yields a frame handle;
and, as long as the monotonic block counter does not wrap, every id the
disk manager's reserve operations hand out is at least 1 (and below the
sentinel), so such an id can never take that panic branch. -/
theorem C10_get_page_invalid_guard (bp : BufferPool) (dm : DiskState)
    (fuel : Nat) (ops : List Nat) (hno : 1 + ops.sum < 2 ^ 64 - 1) :
    BufferPool.get_page bp dm RID_INVALID fuel = .error .invalidPage ∧
    ∀ idv ∈ (DiskManager.runReserves 1 ops).1,
      1 ≤ idv ∧ idv ≠ RID_INVALID ∧
      ∀ (bp2 : BufferPool) (dm2 : DiskState) (fuel2 : Nat),
        BufferPool.get_page bp2 dm2 idv fuel2 ≠ .error .invalidPage := by
  constructor
  · simp [BufferPool.get_page]
  · intro idv hmem
    obtain ⟨h1, h2⟩ := runReserves_ids_bounded ops 1 (le_refl 1) hno idv hmem
    have hne : idv ≠ RID_INVALID := by
      simp only [RID_INVALID]
      omega
    refine ⟨h1, hne, ?_⟩
    intro bp2 dm2 fuel2
    unfold BufferPool.get_page
    rw [if_neg hne]
    repeat' split
    all_goals try simp
    all_goals split <;> simp

/-- C10, witness: the guard theorem applied to an empty one-frame pool and
the reservation sequence `[2, 3]`. -/
theorem C10_get_page_invalid_guard_witness :
    1 + [2, 3].sum < 2 ^ 64 - 1 ∧
    (BufferPool.get_page
        { size := 1, page_frame_map := [], frames := [BufferPoolFrame.new],
          clock_refs := [false], clock_hand := 0, pinned := [false] }
        DiskManager.new RID_INVALID 1 = .error .invalidPage ∧
     ∀ idv ∈ (DiskManager.runReserves 1 [2, 3]).1,
       1 ≤ idv ∧ idv ≠ RID_INVALID ∧
       ∀ (bp2 : BufferPool) (dm2 : DiskState) (fuel2 : Nat),
         BufferPool.get_page bp2 dm2 idv fuel2 ≠ .error .invalidPage) :=
  ⟨by decide,
   C10_get_page_invalid_guard _ DiskManager.new 1 [2, 3] (by decide)⟩
